import Mathlib

/-!
Verification development for the speedyf truncation engine
(src/operations/truncation.ts).

The TypeScript source is shallowly embedded:
* byte buffers (Uint8Array / Buffer) become `List Nat` of byte values;
* xml2js parse trees (explicitArray: true) become the `Xml` inductive:
  a JS object with an optional `$` attribute map and child-element keys,
  each child key mapping to an array of elements;
* a JSZip archive becomes `Zip`, an association list from entry path to
  either a parsed XML part or opaque binary content (parsing a stored XML
  string and serialising it back with xml2js Builder is modelled as the
  identity on the tree);
* external libraries (pdf-lib page copying/saving, JSZip load/generate)
  are modelled as oracle functions supplied as parameters, so theorems
  quantify over their behaviour;
* IEEE-754 double arithmetic used in the DOCX table heuristic is modelled
  exactly by round-to-nearest-even dyadic rationals.
-/

set_option maxRecDepth 4000

namespace SpeedyF

/-- xml2js parse tree (explicitArray: true): a JS object holding an
attribute map (the JS `$` key) and, for each child element name, the
array of child elements under that name. -/
inductive Xml where
  | node (attrs : List (String × String)) (kids : List (String × List Xml))
deriving Repr

-- Structural boolean equality on Xml (mutual over the nested lists).
mutual
def Xml.beq : Xml → Xml → Bool
  | .node a1 k1, .node a2 k2 => a1 == a2 && Xml.beqKids k1 k2
def Xml.beqKids : List (String × List Xml) → List (String × List Xml) → Bool
  | [], [] => true
  | (s1, l1) :: r1, (s2, l2) :: r2 => s1 == s2 && Xml.beqList l1 l2 && Xml.beqKids r1 r2
  | _, _ => false
def Xml.beqList : List Xml → List Xml → Bool
  | [], [] => true
  | x :: xs, y :: ys => Xml.beq x y && Xml.beqList xs ys
  | _, _ => false
end

mutual
theorem Xml.beq_iff : ∀ a b : Xml, Xml.beq a b = true ↔ a = b
  | .node a1 k1, .node a2 k2 => by
    simp only [Xml.beq, Bool.and_eq_true, beq_iff_eq, Xml.node.injEq]
    exact and_congr Iff.rfl (Xml.beqKids_iff k1 k2)
theorem Xml.beqKids_iff : ∀ a b : List (String × List Xml), Xml.beqKids a b = true ↔ a = b
  | [], [] => by simp [Xml.beqKids]
  | [], _ :: _ => by simp [Xml.beqKids]
  | _ :: _, [] => by simp [Xml.beqKids]
  | (s1, l1) :: r1, (s2, l2) :: r2 => by
    simp only [Xml.beqKids, Bool.and_eq_true, beq_iff_eq, List.cons.injEq, Prod.mk.injEq,
      Xml.beqList_iff l1 l2, Xml.beqKids_iff r1 r2]
theorem Xml.beqList_iff : ∀ a b : List Xml, Xml.beqList a b = true ↔ a = b
  | [], [] => by simp [Xml.beqList]
  | [], _ :: _ => by simp [Xml.beqList]
  | _ :: _, [] => by simp [Xml.beqList]
  | x :: xs, y :: ys => by
    simp only [Xml.beqList, Bool.and_eq_true, List.cons.injEq]
    rw [Xml.beq_iff x y, Xml.beqList_iff xs ys]
end

instance : DecidableEq Xml := fun a b =>
  decidable_of_iff (Xml.beq a b = true) (Xml.beq_iff a b)

/-- A zip entry: an XML part (stored parsed) or opaque binary content. -/
inductive Part where
  | xml (tree : Xml)
  | bin (data : List Nat)
deriving DecidableEq, Repr

/-- JSZip archive: association list from entry path to content. -/
abbrev Zip := List (String × Part)

def Xml.attrsOf : Xml → List (String × String)
  | .node a _ => a

def Xml.kidsOf : Xml → List (String × List Xml)
  | .node _ k => k

/-- JS property lookup on an association list (object keys are unique;
the first binding wins). -/
def alook {α : Type} (l : List (String × α)) (q : String) : Option α :=
  match l with
  | [] => none
  | e :: t => if e.1 = q then some e.2 else alook t q

/-- JS `obj.$?.[name]`: attribute lookup. -/
def Xml.attr (x : Xml) (a : String) : Option String :=
  alook x.attrsOf a

/-- JS `obj[key] || []`: the array of child elements stored under a key. -/
def getKids (x : Xml) (key : String) : List Xml :=
  (alook x.kidsOf key).getD []

/-- JS property assignment on an association list: replace the value
under a key in place, or add the key. -/
def aset {α : Type} (l : List (String × α)) (key : String) (v : α) :
    List (String × α) :=
  if (alook l key).isSome then
    l.map (fun e => if e.1 = key then (key, v) else e)
  else l ++ [(key, v)]

/-- JS `obj[key] = v`: replace the child array under a key (or add it). -/
def setKids (x : Xml) (key : String) (v : List Xml) : Xml :=
  .node x.attrsOf (aset x.kidsOf key v)

/-- JS `zip.file(path)` content lookup. -/
def zfile (z : Zip) (p : String) : Option Part :=
  alook z p

/-- Read an entry expected to hold XML. -/
def zxml (z : Zip) (p : String) : Option Xml :=
  match zfile z p with
  | some (.xml t) => some t
  | _ => none

/-- JS `zip.remove(path)`. -/
def zremove (z : Zip) (p : String) : Zip :=
  z.filter (fun e => decide (e.1 ≠ p))

/-- JS `zip.file(path, content)`: replace in place or append. -/
def zset (z : Zip) (p : String) (v : Part) : Zip :=
  aset z p v

def zkeys (z : Zip) : List String := z.map Prod.fst

/-! ### JS string primitives used by the source -/

/-- JS `s.startsWith(p)`. -/
def strStarts (s p : String) : Bool := p.toList.isPrefixOf s.toList

/-- JS `s.endsWith(p)`. -/
def strEnds (s p : String) : Bool := p.toList.isSuffixOf s.toList

/-- Does `p` occur as a contiguous run inside `s`? -/
def listInfix (p : List Char) : List Char → Bool
  | [] => p.isPrefixOf []
  | c :: rest => p.isPrefixOf (c :: rest) || listInfix p rest

/-- JS `s.includes(p)` for nonempty `p`. -/
def strContains (s p : String) : Bool := listInfix p.toList s.toList

/-- Character-level worker for `normalizeTarget`: strips the maximal
leading run of "../" and "/" segments (regex `^(\.\.\/|\/)+`). -/
def normTargetChars : List Char → List Char
  | '.' :: '.' :: '/' :: rest => normTargetChars rest
  | '/' :: rest => normTargetChars rest
  | cs => cs

/-- `normalizeTarget` from the source:
`target.replace(/^(\.\.\/|\/)+/, "")`. -/
def normalizeTarget (t : String) : String :=
  String.mk (normTargetChars t.toList)

/-! ### MIME-type tables and uniform result record -/

def DEFAULT_MAX_SIZE_BYTES : Nat := 50 * 1024 * 1024

def DEFAULT_MAX_PAGES : Nat := 100

def PDF_MIME_TYPES : List String := ["application/pdf"]

def IMAGE_MIME_TYPES : List String :=
  ["image/jpeg", "image/png", "image/avif", "image/tiff", "image/gif",
   "image/heic", "image/heif", "image/bmp", "image/webp"]

def TEXT_MIME_TYPES : List String :=
  ["application/xml", "application/x-troff-man", "application/x-ipynb+json"]

def BINARY_DOCUMENT_MIME_TYPES : List String :=
  ["application/vnd.openxmlformats-officedocument.wordprocessingml.document",
   "application/vnd.openxmlformats-officedocument.presentationml.presentation",
   "application/epub+zip",
   "application/rtf",
   "application/vnd.oasis.opendocument.text",
   "application/x-fictionbook+xml"]

def docxMime : String :=
  "application/vnd.openxmlformats-officedocument.wordprocessingml.document"

def pptxMime : String :=
  "application/vnd.openxmlformats-officedocument.presentationml.presentation"

structure TruncationOptions where
  maxPages : Option Nat
  maxSizeBytes : Option Nat
  paragraphsPerPage : Option Nat
deriving DecidableEq, Repr

structure TruncationResult where
  bytes : List Nat
  wasTruncated : Bool
  originalSize : Nat
  finalSize : Nat
deriving DecidableEq, Repr

/-- Errors surfaced by `truncateFile`: the `FileTooLargeError` raised by
`validateFileSize`, or any other thrown `Error` (kept as its message). -/
inductive TruncError where
  | fileTooLarge (actualSize maxSize : Nat) (mimeType : String)
  | failure (msg : String)
deriving DecidableEq, Repr

/-! ### Byte-budget text truncator -/

/-- The fixed truncation notice appended by `truncateTextFile`. -/
def truncationNote : String := "\n\n[Content truncated due to size limits...]"

/-- `new TextEncoder().encode(truncationNote)`: the notice is pure ASCII,
so its UTF-8 bytes are its character codes. -/
def truncationNoteBytes : List Nat := truncationNote.toList.map Char.toNat

/-- A byte at which the text truncator is willing to cut:
newline (10), carriage return (13) or space (32). -/
def isBreakByte (b : Nat) : Bool := b == 10 || b == 13 || b == 32

/-- The backward scan of `truncateTextFile`: the loop
`for (i = maxSizeBytes - 1; i >= searchStart; i--)` breaks at the first
(i.e. highest) index holding a break byte; the downward loop is rendered
as `find?` on the reversed index range. -/
def bestBreakPoint (truncatedBytes : List Nat) (maxSizeBytes : Nat) : Nat :=
  let searchRange := min 1024 maxSizeBytes
  let searchStart := maxSizeBytes - searchRange
  match (List.range' searchStart (maxSizeBytes - searchStart)).reverse.find?
      (fun i => isBreakByte (truncatedBytes.getD i 0)) with
  | some i => i + 1
  | none => maxSizeBytes

/-- `truncateTextFile` from the source. -/
def truncateTextFile (fileBytes : List Nat) (maxSizeBytes : Nat) : TruncationResult :=
  let originalSize := fileBytes.length
  if fileBytes.length ≤ maxSizeBytes then
    ⟨fileBytes, false, originalSize, fileBytes.length⟩
  else
    let truncatedBytes := fileBytes.take maxSizeBytes
    let bp := bestBreakPoint truncatedBytes maxSizeBytes
    let cut := truncatedBytes.take bp
    let finalBytes := cut ++ truncationNoteBytes
    ⟨finalBytes, true, originalSize, finalBytes.length⟩

/-- `validateFileSize` from the source. -/
def validateFileSize (fileBytes : List Nat) (mimeType : String)
    (maxSizeBytes : Nat) : Except TruncError TruncationResult :=
  if fileBytes.length > maxSizeBytes then
    .error (.fileTooLarge fileBytes.length maxSizeBytes mimeType)
  else
    .ok ⟨fileBytes, false, fileBytes.length, fileBytes.length⟩

/-! ### IEEE-754 binary64 model

`truncateDocxToParagraphs` computes
`Math.floor(tables.length * (maxParagraphs / paragraphs.length))` in JS
double-precision arithmetic.  The operands are small integers (exactly
representable), so the computation is: correctly round the exact quotient
to binary64, multiply by an exact integer with correct rounding, floor.
A binary64 value is represented as a dyadic pair `(m, e)` with value
`m * 2 ^ (e - 52)` and `2^52 ≤ m < 2^53` (or `(0, 0)` for zero). -/

/-- Smallest `t` with `b ≤ a * 2 ^ t` (for `a ≥ 1`, fuelled by `b`). -/
def upShift (a b : Nat) : Nat → Nat
  | 0 => 0
  | fuel + 1 => if b ≤ a then 0 else 1 + upShift (2 * a) b fuel

/-- Binade exponent of the positive rational `a / b`:
the `e` with `2 ^ e ≤ a / b < 2 ^ (e + 1)`. -/
def binadeExp (a b : Nat) : Int :=
  if b ≤ a then (Nat.log2 (a / b) : Int) else -(upShift a b b : Int)

/-- Round `num / den` to the nearest integer, ties to even. -/
def rne (num den : Nat) : Nat :=
  let q := num / den
  let r := num % den
  if 2 * r < den then q
  else if den < 2 * r then q + 1
  else if q % 2 = 0 then q else q + 1

/-- Correctly round the rational `a / b` to binary64. -/
def roundRatD (a b : Nat) : Nat × Int :=
  if a = 0 ∨ b = 0 then (0, 0)
  else
    let e := binadeExp a b
    let num := if e ≤ 52 then a * 2 ^ (52 - e).toNat else a
    let den := if e ≤ 52 then b else b * 2 ^ (e - 52).toNat
    let m := rne num den
    if m = 2 ^ 53 then (2 ^ 52, e + 1) else (m, e)

/-- JS division `a / b` of two exactly-representable naturals. -/
def jsDivNN (a b : Nat) : Nat × Int := roundRatD a b

/-- JS multiplication of an exactly-representable natural by a double. -/
def jsMulND (n : Nat) (d : Nat × Int) : Nat × Int :=
  if n = 0 ∨ d.1 = 0 then (0, 0)
  else if d.2 ≥ 52 then roundRatD (n * d.1 * 2 ^ (d.2 - 52).toNat) 1
  else roundRatD (n * d.1) (2 ^ (52 - d.2).toNat)

/-- JS `Math.floor` of a nonnegative double. -/
def jsFloorD (d : Nat × Int) : Nat :=
  if d.2 ≥ 52 then d.1 * 2 ^ (d.2 - 52).toNat else d.1 / 2 ^ (52 - d.2).toNat

/-- `Math.floor(tableCount * (maxParagraphs / totalParagraphs))` exactly as
JS computes it. -/
def jsKeepTables (maxParagraphs totalParagraphs tableCount : Nat) : Nat :=
  jsFloorD (jsMulND tableCount (jsDivNN maxParagraphs totalParagraphs))

/-! ### The shared binary-search loop

All three strategies (`truncatePdfFile`, `truncatePptxFile`,
`truncateDocxFile`) inline the identical loop
`while (low <= high) { mid = floor((low+high)/2); rebuild; ... }`
followed by the identical `k = 1` fallback when nothing fits; it is
embedded once, parameterised by the rebuild-and-measure callback. -/

def searchLoopE (rebuild : Nat → Except String (List Nat)) (maxSize : Nat) :
    Nat → Int → Int → Option (List Nat) → Except String (Option (List Nat))
  | 0, _, _, best => .ok best
  | fuel + 1, low, high, best =>
    -- mid = Math.floor((low + high) / 2), written inline
    if low ≤ high then
      match rebuild ((low + high) / 2).toNat with
      | .error e => .error e
      | .ok bytes =>
        if bytes.length ≤ maxSize then
          searchLoopE rebuild maxSize fuel ((low + high) / 2 + 1) high (some bytes)
        else
          searchLoopE rebuild maxSize fuel low ((low + high) / 2 - 1) best
    else .ok best

/-- The search with its single-unit fallback: binary search for the best
candidate, and if none fit, rebuild with one unit and return that.
The loop runs at most `high` iterations (the interval width shrinks by
at least one each time), so fuel `high + 1` never runs out; this is the
`while (low <= high)` loop in structurally recursive form. -/
def runSearch (rebuild : Nat → Except String (List Nat)) (maxSize : Nat)
    (high : Nat) : Except String (List Nat) := do
  match ← searchLoopE rebuild maxSize (high + 1) 1 (high : Int) none with
  | some b => pure b
  | none => rebuild 1

/-! ### PDF strategy -/

/-- Oracle model of a pdf-lib document: its page count, and the bytes
produced by copying pages `0..k-1` into a fresh document and saving it. -/
structure PdfFile where
  pageCount : Nat
  save : Nat → List Nat

/-- `truncatePdfFile` from the source, over a loaded `PdfFile`. -/
def truncatePdfFile (pdf : PdfFile) (pdfBytes : List Nat)
    (maxPages maxSizeBytes : Nat) : Except String TruncationResult :=
  let originalSize := pdfBytes.length
  if pdf.pageCount ≤ maxPages ∧ pdfBytes.length ≤ maxSizeBytes then
    .ok ⟨pdfBytes, false, originalSize, pdfBytes.length⟩
  else do
    let targetPageCount := min pdf.pageCount maxPages
    let bestBytes ← runSearch (fun k => .ok (pdf.save k)) maxSizeBytes targetPageCount
    pure ⟨bestBytes, true, originalSize, bestBytes.length⟩

/-! ### PPTX strategy -/

/-- Digits of an entry name matching `^ppt\/slides\/slide(\d+)\.xml$`. -/
def slideFileNum? (f : String) : Option String :=
  let cs := f.toList
  if ("ppt/slides/slide".toList).isPrefixOf cs ∧ (".xml".toList).isSuffixOf cs then
    let mid := (cs.drop 16).take (cs.length - 20)
    if mid ≠ [] ∧ mid.all Char.isDigit then some (String.mk mid) else none
  else none

/-- Digits captured by a suffix regex `stem(\d+)\.xml$`: the maximal digit
run immediately before the final `.xml`, which must be preceded by
`stem`. -/
def endSlideMatch (stem : String) (t : String) : Option String :=
  let cs := t.toList
  if (".xml".toList).isSuffixOf cs then
    let s := cs.take (cs.length - 4)
    let ds := (s.reverse.takeWhile Char.isDigit).reverse
    if ds ≠ [] ∧ (stem.toList).isSuffixOf (s.take (s.length - ds.length)) then
      some (String.mk ds)
    else none
  else none

/-- `/slides\/slide(\d+)\.xml$/` applied to a relationship target. -/
def targetSlideNum? (t : String) : Option String := endSlideMatch "slides/slide" t

/-- `/\/ppt\/slides\/slide(\d+)\.xml$/` applied to a content-type part name. -/
def ctSlideNum? (pn : String) : Option String := endSlideMatch "/ppt/slides/slide" pn

/-- `^ppt\/slides\/_rels\/slide\d+\.xml\.rels$`. -/
def isSlideRelsPath (f : String) : Bool :=
  let cs := f.toList
  ("ppt/slides/_rels/slide".toList).isPrefixOf cs &&
  (".xml.rels".toList).isSuffixOf cs &&
  (let mid := (cs.drop 22).take (cs.length - 31)
   decide (mid ≠ []) && mid.all Char.isDigit)

/-- Decimal value of a digit string (the captured group is all digits, so
`parseInt` is plain base-10 evaluation). -/
def digitsToNat (cs : List Char) : Nat :=
  cs.foldl (fun n c => n * 10 + (c.toNat - 48)) 0

/-- `parseInt` of the digits in a slide file name (the sort key). -/
def slideSortKey (f : String) : Nat :=
  digitsToNat ((slideFileNum? f).getD "0").toList

/-- Stable insertion into a list sorted by a numeric key (an element being
inserted came earlier in the original list than the already-sorted ones,
so on a tie it goes first). -/
def insertByKey {α : Type} (key : α → Nat) (a : α) : List α → List α
  | [] => [a]
  | b :: bs => if key a ≤ key b then a :: b :: bs else b :: insertByKey key a bs

/-- Stable sort by a numeric key, modelling JS `Array.prototype.sort`
with the comparator `(a, b) => numA - numB`. -/
def sortByKey {α : Type} (key : α → Nat) : List α → List α
  | [] => []
  | a :: as => insertByKey key a (sortByKey key as)

/-- The slide entries of the archive, sorted by slide number. -/
def pptxSlideFiles (z : Zip) : List String :=
  sortByKey slideSortKey ((zkeys z).filter (fun f => (slideFileNum? f).isSome))

/-- `parsed.Relationships?.Relationship || []` (the top-level xml2js key
holds the single root element; deeper keys hold arrays). -/
def relsListOf (root : Xml) : List Xml :=
  match getKids root "Relationships" with
  | [] => []
  | r :: _ => getKids r "Relationship"

/-- `parsed.Types?.Override || []`. -/
def typesListOf (root : Xml) : List Xml :=
  match getKids root "Types" with
  | [] => []
  | t :: _ => getKids t "Override"

/-- Read a zip entry the way `zip.file(p)?.async("string")` followed by
`if (content) parseStringPromise(content)` does: a missing entry or an
empty (falsy) string skips, a non-XML string fails the parse, an XML
string yields its tree. -/
def zreadXml (z : Zip) (p : String) : Except String (Option Xml) :=
  match zfile z p with
  | none => .ok none
  | some (.bin []) => .ok none
  | some (.bin _) => .error "XML parse error"
  | some (.xml t) => .ok (some t)

/-- `slideFile.replace("slides/", "slides/_rels/") + ".rels"`.
The argument is always a slide entry name `ppt/slides/slideN.xml`, whose
single occurrence of `slides/` starts at index 4, so the JS
first-occurrence replace yields `"ppt/slides/_rels/" ++ name ++ ".rels"`
with `name` the part after the 11-character prefix `ppt/slides/`. -/
def slideRelsName (f : String) : String :=
  "ppt/slides/_rels/" ++ f.drop 11 ++ ".rels"

/-- `target.replace(/^\.\.\//, "ppt/")`. -/
def pptxNormalizeMedia (t : String) : String :=
  if strStarts t "../" then "ppt/" ++ t.drop 3 else t

/-- The union of relationship targets referenced by the surviving
per-slide relationship parts. -/
def pptxUsedMedia (z : Zip) : Except String (List String) :=
  ((zkeys z).filter isSlideRelsPath).foldlM (fun (acc : List String) relsFile => do
    match ← zreadXml z relsFile with
    | none => pure acc
    | some root =>
      pure (acc ++ (relsListOf root).filterMap (fun rel =>
        match rel.attr "Target" with
        | some t => if t ≠ "" then some (pptxNormalizeMedia t) else none
        | none => none))) []

/-- Delete every `ppt/media/` entry not referenced by a surviving slide
relationship. -/
def pptxMediaRemove (z : Zip) (usedMediaPaths : List String) : Zip :=
  ((zkeys z).filter (fun f => strStarts f "ppt/media/")).foldl (fun z f =>
    if usedMediaPaths.contains f then z else zremove z f) z

/-- Strip content-type overrides of removed media entries. -/
def pptxMediaCt (z1 : Zip) (usedMediaPaths : List String) : Except String Zip := do
  match ← zreadXml z1 "[Content_Types].xml" with
  | none => pure z1
  | some ct =>
    let kept := (typesListOf ct).filter (fun o =>
      match o.attr "PartName" with
      | none => true
      | some pn =>
        if strContains pn "/ppt/media/" then
          usedMediaPaths.contains (if strStarts pn "/" then pn.drop 1 else pn)
        else true)
    match getKids ct "Types" with
    | [] => .error "TypeError"
    | t :: rest =>
      pure (zset z1 "[Content_Types].xml"
        (.xml (setKids ct "Types" (setKids t "Override" kept :: rest))))

/-- `cleanupOrphanedPptxMedia` from the source. -/
def cleanupOrphanedPptxMedia (z : Zip) : Except String Zip := do
  let usedMediaPaths ← pptxUsedMedia z
  pptxMediaCt (pptxMediaRemove z usedMediaPaths) usedMediaPaths

/-- Which presentation relationships survive: those whose target does not
match a slide file, or matches a kept slide number. -/
def pptxKeepRel (keepSlideNumbers : List String) (rel : Xml) : Bool :=
  match (rel.attr "Target").bind targetSlideNum? with
  | none => true
  | some num => keepSlideNumbers.contains num

/-- Removal loop of `truncatePptxToSlides`: drop the slide entries past
`maxSlides` together with their `_rels` parts. -/
def pptxStep1Remove (zip : Zip) (slideFiles : List String) (maxSlides : Nat) : Zip :=
  (slideFiles.drop maxSlides).foldl (fun z f =>
    let z := zremove z f
    let relsFile := slideRelsName f
    if (zfile z relsFile).isSome then zremove z relsFile else z) zip

/-- Update of `ppt/_rels/presentation.xml.rels`: prune relationships to
removed slides and record the dropped relationship IDs. -/
def pptxStep2Rels (z1 : Zip) (keepSlideNumbers : List String) :
    Except String (Zip × List (Option String)) := do
  match ← zreadXml z1 "ppt/_rels/presentation.xml.rels" with
  | none => pure (z1, [])
  | some rroot =>
    let relationships := relsListOf rroot
    let kept := relationships.filter (pptxKeepRel keepSlideNumbers)
    let removed := relationships.filterMap (fun rel =>
      if pptxKeepRel keepSlideNumbers rel then none else some (rel.attr "Id"))
    match getKids rroot "Relationships" with
    | [] => .error "TypeError"
    | r :: rest =>
      pure (zset z1 "ppt/_rels/presentation.xml.rels"
        (.xml (setKids rroot "Relationships" (setKids r "Relationship" kept :: rest))),
        removed)

/-- Update of `ppt/presentation.xml`: drop `p:sldId` entries that
reference a removed slide relationship. -/
def pptxStep3Pres (z2 : Zip) (removedSlideRelIds : List (Option String)) :
    Except String Zip := do
  match ← zreadXml z2 "ppt/presentation.xml" with
  | none => pure z2
  | some proot =>
    let proot' :=
      match getKids proot "p:presentation" with
      | [] => proot
      | p :: prest =>
        match getKids p "p:sldIdLst" with
        | [] => proot
        | l :: lrest =>
          let kept := (getKids l "p:sldId").filter (fun sld =>
            !(removedSlideRelIds.contains (sld.attr "r:id")))
          setKids proot "p:presentation"
            (setKids p "p:sldIdLst" (setKids l "p:sldId" kept :: lrest) :: prest)
    pure (zset z2 "ppt/presentation.xml" (.xml proot'))

/-- Update of `[Content_Types].xml`: drop the overrides of removed
slides. -/
def pptxStep4Ct (z3 : Zip) (keepSlideNumbers : List String) :
    Except String Zip := do
  match ← zreadXml z3 "[Content_Types].xml" with
  | none => pure z3
  | some ct =>
    let kept := (typesListOf ct).filter (fun o =>
      match (o.attr "PartName").bind ctSlideNum? with
      | none => true
      | some num => keepSlideNumbers.contains num)
    match getKids ct "Types" with
    | [] => .error "TypeError"
    | t :: rest =>
      pure (zset z3 "[Content_Types].xml"
        (.xml (setKids ct "Types" (setKids t "Override" kept :: rest))))

/-- The container-editing body of `truncatePptxToSlides` (everything up to
`zip.generateAsync`), returning the edited archive. -/
def pptxEditZip (zip : Zip) (maxSlides : Nat) : Except String Zip := do
  let slideFiles := pptxSlideFiles zip
  let keepSlideNumbers := (slideFiles.take maxSlides).filterMap slideFileNum?
  let z1 := pptxStep1Remove zip slideFiles maxSlides
  let (z2, removedSlideRelIds) ← pptxStep2Rels z1 keepSlideNumbers
  let z3 ← pptxStep3Pres z2 removedSlideRelIds
  let z4 ← pptxStep4Ct z3 keepSlideNumbers
  cleanupOrphanedPptxMedia z4

/-- `truncatePptxToSlides` from the source: edit the container, then
serialise it (`zip.generateAsync`, the `ser` oracle). -/
def truncatePptxToSlides (zip : Zip) (maxSlides : Nat) (ser : Zip → List Nat) :
    Except String (List Nat) :=
  (pptxEditZip zip maxSlides).map ser

/-- `truncatePptxFile` from the source, over a loaded archive. -/
def truncatePptxFile (zip : Zip) (fileBytes : List Nat)
    (maxSlides maxSizeBytes : Nat) (ser : Zip → List Nat) :
    Except String TruncationResult :=
  let originalSize := fileBytes.length
  let totalSlides := (pptxSlideFiles zip).length
  if totalSlides ≤ maxSlides ∧ fileBytes.length ≤ maxSizeBytes then
    .ok ⟨fileBytes, false, originalSize, fileBytes.length⟩
  else do
    let bestBytes ← runSearch (fun k => truncatePptxToSlides zip k ser)
      maxSizeBytes (min totalSlides maxSlides)
    pure ⟨bestBytes, true, originalSize, bestBytes.length⟩

/-! ### DOCX strategy -/

-- collectRelationshipIds: recursively gather the values of every
-- r:id, r:embed and r:link attribute in the tree.
mutual
def collectRelationshipIds : Xml → List String
  | .node attrs kids =>
    (attrs.filterMap (fun a =>
      if a.1 = "r:id" ∨ a.1 = "r:embed" ∨ a.1 = "r:link" then some a.2 else none))
    ++ collectRelIdsKids kids
def collectRelIdsKids : List (String × List Xml) → List String
  | [] => []
  | (_, items) :: rest => collectRelIdsList items ++ collectRelIdsKids rest
def collectRelIdsList : List Xml → List String
  | [] => []
  | x :: xs => collectRelationshipIds x ++ collectRelIdsList xs
end

-- collectElementIds: at every visited object, take the truthy attrName
-- attribute of each child element named elementName, then recurse into
-- all child arrays.  (Recursing into the JS attribute object can
-- contribute nothing, since attribute values are strings.)
mutual
def collectElementIds (elementName attrName : String) : Xml → List String
  | .node attrs kids =>
    ((getKids (.node attrs kids) elementName).filterMap (fun e =>
      match e.attr attrName with
      | some i => if i ≠ "" then some i else none
      | none => none))
    ++ collectElemIdsKids elementName attrName kids
def collectElemIdsKids (elementName attrName : String) :
    List (String × List Xml) → List String
  | [] => []
  | (_, items) :: rest =>
    collectElemIdsList elementName attrName items
    ++ collectElemIdsKids elementName attrName rest
def collectElemIdsList (elementName attrName : String) : List Xml → List String
  | [] => []
  | x :: xs =>
    collectElementIds elementName attrName x
    ++ collectElemIdsList elementName attrName xs
end

def requiredRelTypes : List String :=
  ["styles", "settings", "webSettings", "fontTable", "theme", "numbering",
   "footnotes", "endnotes", "comments"]

/-- `isRequiredDocxRelationship` from the source. -/
def isRequiredDocxRelationship (relType : String) : Bool :=
  requiredRelTypes.any (fun t => strContains relType.toLower t.toLower)

/-- The relationship-pruning predicate of `truncateDocxToParagraphs`
step 2: keep a relationship whose type is always required or whose ID is
still referenced. -/
def docxKeepRel (used : List String) (rel : Xml) : Bool :=
  isRequiredDocxRelationship ((rel.attr "Type").getD "") ||
  (match rel.attr "Id" with
   | some i => used.contains i
   | none => false)

/-- The removed-target record of step 2: the normalised target of each
dropped relationship whose target is truthy and not a URL. -/
def docxRemovedTargets (used : List String) (rels : List Xml) : List String :=
  rels.filterMap (fun rel =>
    if docxKeepRel used rel then none
    else match rel.attr "Target" with
      | some t =>
        if t ≠ "" ∧ ¬ (strStarts t "http") then some (normalizeTarget t) else none
      | none => none)

/-- Step 3 path resolution:
`target.startsWith("word/") ? target : "word/" + target`. -/
def docxFullPath (t : String) : String :=
  if strStarts t "word/" then t else "word/" ++ t

/-- Read `word/document.xml` the way both DOCX functions do:
a missing entry (or empty, hence falsy, content) is the fatal
`Invalid DOCX: missing document.xml`; non-XML content fails the parse. -/
def docxGetRoot (zip : Zip) : Except String Xml :=
  match zfile zip "word/document.xml" with
  | none => .error "Invalid DOCX: missing document.xml"
  | some (.bin []) => .error "Invalid DOCX: missing document.xml"
  | some (.bin _) => .error "XML parse error"
  | some (.xml t) => .ok t

/-- `parsed["w:document"]["w:body"][0]` (a JS TypeError on a tree without
that spine aborts the call). -/
def docxGetBody (root : Xml) : Except String Xml :=
  match getKids root "w:document" with
  | [] => .error "TypeError"
  | d :: _ =>
    match getKids d "w:body" with
    | [] => .error "TypeError"
    | b :: _ => .ok b

/-- Step 1 of `truncateDocxToParagraphs` applied to the body element:
truncate the paragraph array, keep a proportional prefix of the table
array (computed in JS doubles), and collapse the section properties to
their first entry. -/
def docxEditBody (body : Xml) (maxParagraphs : Nat) : Xml :=
  let paragraphs := getKids body "w:p"
  let tables := getKids body "w:tbl"
  let b1 :=
    if maxParagraphs < paragraphs.length then
      setKids body "w:p" (paragraphs.take maxParagraphs)
    else body
  let b2 :=
    if maxParagraphs < paragraphs.length ∧ 0 < tables.length then
      setKids b1 "w:tbl"
        (tables.take (jsKeepTables maxParagraphs paragraphs.length tables.length))
    else b1
  match (getKids body "w:sectPr").head? with
  | some s => setKids b2 "w:sectPr" [s]
  | none => b2

/-- Step 1 applied to the whole parsed document part. -/
def docxEditRoot (root : Xml) (maxParagraphs : Nat) : Except String Xml :=
  match getKids root "w:document" with
  | [] => .error "TypeError"
  | d :: drest =>
    match getKids d "w:body" with
    | [] => .error "TypeError"
    | b :: brest =>
      .ok (setKids root "w:document"
        (setKids d "w:body" (docxEditBody b maxParagraphs :: brest) :: drest))

/-- The satellite-entry filter: keep an entry whose `w:id` is a
separator/continuation placeholder (when those are retained) or is in
the referenced set. -/
def notesKeep (used : List String) (keepPlaceholders : Bool) (n : Xml) : Bool :=
  match n.attr "w:id" with
  | some i => (keepPlaceholders && (i == "-1" || i == "0")) || used.contains i
  | none => false

/-- The shared body of `cleanupFootnotes` / `cleanupEndnotes` /
`cleanupComments` (the three source functions are identical up to part
path, element names, referenced-ID set and whether the `-1`/`0`
separator placeholders are retained). -/
def cleanupNotesPart (z : Zip) (path rootKey entryKey : String)
    (used : List String) (keepPlaceholders : Bool) : Except String Zip := do
  match ← zreadXml z path with
  | none => pure z
  | some nroot =>
    let notes := match getKids nroot rootKey with
      | [] => []
      | r :: _ => getKids r entryKey
    let kept := notes.filter (notesKeep used keepPlaceholders)
    match getKids nroot rootKey with
    | [] => .error "TypeError"
    | r :: rest =>
      pure (zset z path (.xml (setKids nroot rootKey (setKids r entryKey kept :: rest))))

/-- `cleanupFootnotes` from the source. -/
def cleanupFootnotes (z : Zip) (docParsed : Xml) : Except String Zip :=
  cleanupNotesPart z "word/footnotes.xml" "w:footnotes" "w:footnote"
    (collectElementIds "w:footnoteReference" "w:id" docParsed) true

/-- `cleanupEndnotes` from the source. -/
def cleanupEndnotes (z : Zip) (docParsed : Xml) : Except String Zip :=
  cleanupNotesPart z "word/endnotes.xml" "w:endnotes" "w:endnote"
    (collectElementIds "w:endnoteReference" "w:id" docParsed) true

/-- `cleanupComments` from the source: the referenced set is the union of
comment-reference and comment-range-start IDs, and there is no placeholder
clause. -/
def cleanupComments (z : Zip) (docParsed : Xml) : Except String Zip :=
  cleanupNotesPart z "word/comments.xml" "w:comments" "w:comment"
    (collectElementIds "w:commentReference" "w:id" docParsed
      ++ collectElementIds "w:commentRangeStart" "w:id" docParsed) false

/-- Step 2 of `truncateDocxToParagraphs`: prune
`word/_rels/document.xml.rels` and record removed targets. -/
def docxStep2Rels (z1 : Zip) (usedRelIds : List String) :
    Except String (Zip × List String) := do
  match ← zreadXml z1 "word/_rels/document.xml.rels" with
  | none => pure (z1, [])
  | some rroot =>
    let relationships := relsListOf rroot
    let kept := relationships.filter (docxKeepRel usedRelIds)
    let removed := docxRemovedTargets usedRelIds relationships
    match getKids rroot "Relationships" with
    | [] => .error "TypeError"
    | r :: rest =>
      pure (zset z1 "word/_rels/document.xml.rels"
        (.xml (setKids rroot "Relationships" (setKids r "Relationship" kept :: rest))),
        removed)

/-- Step 3: delete the entry behind each removed target. -/
def docxStep3Remove (z2 : Zip) (removedTargets : List String) : Zip :=
  removedTargets.foldl (fun z t => zremove z (docxFullPath t)) z2

/-- Step 4: drop content-type overrides whose part was removed. -/
def docxStep4Ct (z3 : Zip) (removedTargets : List String) : Except String Zip := do
  match ← zreadXml z3 "[Content_Types].xml" with
  | none => pure z3
  | some ct =>
    let kept := (typesListOf ct).filter (fun o =>
      match o.attr "PartName" with
      | none => true
      | some pn =>
        !(removedTargets.contains (if strStarts pn "/" then pn.drop 1 else pn)))
    match getKids ct "Types" with
    | [] => .error "TypeError"
    | t :: rest =>
      pure (zset z3 "[Content_Types].xml"
        (.xml (setKids ct "Types" (setKids t "Override" kept :: rest))))

/-- The container-editing body of `truncateDocxToParagraphs` (everything
up to `zip.generateAsync`), returning the edited archive. -/
def docxEditZip (zip : Zip) (maxParagraphs : Nat) : Except String Zip := do
  -- 1. truncate document.xml and collect used relationship IDs
  let root ← docxGetRoot zip
  let root' ← docxEditRoot root maxParagraphs
  let usedRelIds := collectRelationshipIds root'
  let z1 := zset zip "word/document.xml" (.xml root')
  -- 2. clean up document.xml.rels
  let (z2, removedTargets) ← docxStep2Rels z1 usedRelIds
  -- 3. remove orphaned media/embedding entries
  let z3 := docxStep3Remove z2 removedTargets
  -- 4. clean up [Content_Types].xml
  let z4 ← docxStep4Ct z3 removedTargets
  -- 5. clean up footnotes, endnotes, comments
  let z5 ← cleanupFootnotes z4 root'
  let z6 ← cleanupEndnotes z5 root'
  cleanupComments z6 root'

/-- `truncateDocxToParagraphs` from the source: edit the container, then
serialise it. -/
def truncateDocxToParagraphs (zip : Zip) (maxParagraphs : Nat)
    (ser : Zip → List Nat) : Except String (List Nat) :=
  (docxEditZip zip maxParagraphs).map ser

def DEFAULT_PARAGRAPHS_PER_PAGE : Nat := 15

/-- `truncateDocxFile` from the source, over a loaded archive. -/
def truncateDocxFile (zip : Zip) (fileBytes : List Nat)
    (maxPages maxSizeBytes : Nat) (paragraphsPerPage : Option Nat)
    (ser : Zip → List Nat) : Except String TruncationResult := do
  let actualParagraphsPerPage := paragraphsPerPage.getD DEFAULT_PARAGRAPHS_PER_PAGE
  let initialMaxParagraphs := maxPages * actualParagraphsPerPage
  let originalSize := fileBytes.length
  let root ← docxGetRoot zip
  let body ← docxGetBody root
  let totalParagraphs := (getKids body "w:p").length
  if totalParagraphs ≤ initialMaxParagraphs ∧ fileBytes.length ≤ maxSizeBytes then
    pure ⟨fileBytes, false, originalSize, fileBytes.length⟩
  else do
    let bestBytes ← runSearch (fun k => truncateDocxToParagraphs zip k ser)
      maxSizeBytes (min totalParagraphs initialMaxParagraphs)
    pure ⟨bestBytes, true, originalSize, bestBytes.length⟩

/-! ### Dispatcher -/

/-- The external collaborators of `truncateFile`: `PDFDocument.load`,
`JSZip.loadAsync` and `zip.generateAsync`. -/
structure Env where
  loadPdf : List Nat → Except String PdfFile
  loadZip : List Nat → Except String Zip
  ser : Zip → List Nat

/-- `truncateFile` from the source: dispatch on the MIME type through the
same sequence of guards. -/
def truncateFile (env : Env) (fileBytes : List Nat) (mimeType : String)
    (options : TruncationOptions) : Except TruncError TruncationResult :=
  let maxPages := options.maxPages.getD DEFAULT_MAX_PAGES
  let maxSizeBytes := options.maxSizeBytes.getD DEFAULT_MAX_SIZE_BYTES
  if PDF_MIME_TYPES.contains mimeType then
    ((env.loadPdf fileBytes).bind
      (fun pdf => truncatePdfFile pdf fileBytes maxPages maxSizeBytes)).mapError .failure
  else if TEXT_MIME_TYPES.contains mimeType then
    .ok (truncateTextFile fileBytes maxSizeBytes)
  else if IMAGE_MIME_TYPES.contains mimeType then
    validateFileSize fileBytes mimeType maxSizeBytes
  else if mimeType = pptxMime then
    ((env.loadZip fileBytes).bind
      (fun z => truncatePptxFile z fileBytes maxPages maxSizeBytes env.ser)).mapError .failure
  else if mimeType = docxMime then
    ((env.loadZip fileBytes).bind
      (fun z => truncateDocxFile z fileBytes maxPages maxSizeBytes
        options.paragraphsPerPage env.ser)).mapError .failure
  else if BINARY_DOCUMENT_MIME_TYPES.contains mimeType then
    validateFileSize fileBytes mimeType maxSizeBytes
  else
    validateFileSize fileBytes mimeType maxSizeBytes

/-! ### Basic lemmas about the archive and tree operations -/

theorem alook_append {α : Type} (l1 l2 : List (String × α)) (q : String) :
    alook (l1 ++ l2) q =
      match alook l1 q with
      | some v => some v
      | none => alook l2 q := by
  induction l1 with
  | nil => simp [alook]
  | cons e t ih =>
    by_cases h : e.1 = q
    · simp [alook, h]
    · simp only [List.cons_append, alook, if_neg h]
      exact ih

theorem alook_map_set {α : Type} (l : List (String × α)) (k q : String) (v : α) :
    alook (l.map (fun e => if e.1 = k then (k, v) else e)) q
    = if q = k then (if (alook l k).isSome then some v else none)
      else alook l q := by
  induction l with
  | nil => simp [alook]
  | cons e t ih =>
    by_cases he : e.1 = k
    · simp only [List.map_cons, if_pos he, alook, Option.isSome_some, if_true]
      by_cases hq : q = k
      · subst hq
        simp
      · have h1 : ¬(k = q) := fun h => hq h.symm
        have h2 : ¬(e.1 = q) := by rw [he]; exact h1
        rw [if_neg h1, if_neg hq, if_neg h2, ih, if_neg hq]
    · simp only [List.map_cons, if_neg he, alook]
      by_cases hqe : e.1 = q
      · have hq : ¬(q = k) := fun h => he (by rw [hqe, h])
        rw [if_pos hqe, if_neg hq, if_pos hqe]
      · rw [if_neg hqe, if_neg hqe, ih]

theorem alook_aset {α : Type} (l : List (String × α)) (k q : String) (v : α) :
    alook (aset l k v) q = if q = k then some v else alook l q := by
  unfold aset
  split
  · rename_i h
    rw [alook_map_set, if_pos h]
  · rename_i h
    rw [alook_append]
    by_cases hq : q = k
    · subst hq
      have : alook l q = none := by
        cases hl : alook l q
        · rfl
        · exact absurd (by rw [hl]; rfl) h
      rw [this]
      simp [alook]
    · have hkq : ¬(k = q) := fun h => hq h.symm
      rw [if_neg hq]
      cases hl : alook l q
      · simp [alook, hkq]
      · rfl

theorem alook_filter_ne {α : Type} (l : List (String × α)) (p q : String) :
    alook (l.filter (fun e => decide (e.1 ≠ p))) q
    = if q = p then none else alook l q := by
  induction l with
  | nil => simp [alook]
  | cons e t ih =>
    simp only [List.filter_cons]
    by_cases he : e.1 = p
    · rw [if_neg (by simp [he]), ih]
      by_cases hq : q = p
      · simp [hq]
      · have hne : ¬(e.1 = q) := by rw [he]; exact fun h => hq h.symm
        simp only [if_neg hq, alook, if_neg hne]
    · rw [if_pos (by simp [he])]
      simp only [alook]
      by_cases hqe : e.1 = q
      · have hq : ¬(q = p) := fun h => he (hqe.trans h)
        simp [hqe, if_neg hq]
      · simp only [if_neg hqe, ih]

theorem zfile_zset (z : Zip) (p q : String) (v : Part) :
    zfile (zset z p v) q = if q = p then some v else zfile z q :=
  alook_aset z p q v

theorem zfile_zremove (z : Zip) (p q : String) :
    zfile (zremove z p) q = if q = p then none else zfile z q :=
  alook_filter_ne z p q

theorem getKids_setKids (x : Xml) (k q : String) (v : List Xml) :
    getKids (setKids x k v) q = if q = k then v else getKids x q := by
  unfold getKids setKids
  simp only [Xml.kidsOf, alook_aset]
  split <;> simp

theorem attr_setKids (x : Xml) (k : String) (v : List Xml) (a : String) :
    (setKids x k v).attr a = x.attr a := rfl

theorem zxml_zset_xml (z : Zip) (p q : String) (t : Xml) :
    zxml (zset z p (.xml t)) q = if q = p then some t else zxml z q := by
  unfold zxml
  rw [zfile_zset]
  by_cases h : q = p
  · simp [h]
  · simp [h]

theorem zxml_zremove (z : Zip) (p q : String) :
    zxml (zremove z p) q = if q = p then none else zxml z q := by
  unfold zxml
  rw [zfile_zremove]
  by_cases h : q = p
  · simp [h]
  · simp [h]

theorem zfile_foldl_zremove (g : String → String) (L : List String) (z : Zip) (q : String) :
    zfile (L.foldl (fun z t => zremove z (g t)) z) q
    = if ∃ t ∈ L, g t = q then none else zfile z q := by
  induction L generalizing z with
  | nil => simp
  | cons a t ih =>
    simp only [List.foldl_cons]
    rw [ih]
    by_cases h1 : ∃ u ∈ t, g u = q
    · obtain ⟨u, hu, hgu⟩ := h1
      rw [if_pos ⟨u, hu, hgu⟩, if_pos ⟨u, List.mem_cons_of_mem a hu, hgu⟩]
    · rw [if_neg h1, zfile_zremove]
      by_cases h2 : g a = q
      · rw [if_pos h2.symm, if_pos ⟨a, List.mem_cons_self a t, h2⟩]
      · rw [if_neg (fun h => h2 h.symm), if_neg (by
          rintro ⟨u, hu, hgu⟩
          rcases List.mem_cons.mp hu with h | h
          · exact h2 (h ▸ hgu)
          · exact h1 ⟨u, h, hgu⟩)]

theorem zfile_foldl_zremove_if (cond : String → Bool) (L : List String) (z : Zip) (q : String) :
    zfile (L.foldl (fun z f => if cond f then z else zremove z f) z) q
    = if q ∈ L ∧ cond q = false then none else zfile z q := by
  induction L generalizing z with
  | nil => simp
  | cons a t ih =>
    simp only [List.foldl_cons]
    by_cases hc : cond a
    · rw [if_pos hc, ih]
      by_cases h1 : q ∈ t ∧ cond q = false
      · rw [if_pos h1, if_pos ⟨List.mem_cons_of_mem a h1.1, h1.2⟩]
      · rw [if_neg h1, if_neg (by
          rintro ⟨hm, hq⟩
          rcases List.mem_cons.mp hm with h | h
          · rw [h] at hq
            rw [hq] at hc
            exact Bool.false_ne_true hc
          · exact h1 ⟨h, hq⟩)]
    · rw [if_neg hc, ih, zfile_zremove]
      by_cases h1 : q ∈ t ∧ cond q = false
      · rw [if_pos h1, if_pos ⟨List.mem_cons_of_mem a h1.1, h1.2⟩]
      · rw [if_neg h1]
        by_cases h2 : q = a
        · rw [if_pos h2, if_pos ⟨by rw [h2]; exact List.mem_cons_self a t,
            by rw [h2]; exact Bool.eq_false_iff.mpr hc⟩]
        · rw [if_neg h2, if_neg (by
            rintro ⟨hm, hq⟩
            rcases List.mem_cons.mp hm with h | h
            · exact h2 h
            · exact h1 ⟨h, hq⟩)]

theorem mem_insertByKey {α : Type} (key : α → Nat) (a b : α) (l : List α) :
    b ∈ insertByKey key a l ↔ b = a ∨ b ∈ l := by
  induction l with
  | nil => simp [insertByKey]
  | cons c t ih =>
    unfold insertByKey
    split
    · simp [List.mem_cons]
    · simp only [List.mem_cons, ih]
      tauto

theorem mem_sortByKey {α : Type} (key : α → Nat) (a : α) (l : List α) :
    a ∈ sortByKey key l ↔ a ∈ l := by
  induction l with
  | nil => simp [sortByKey]
  | cons c t ih =>
    unfold sortByKey
    rw [mem_insertByKey, ih, List.mem_cons]

theorem mem_pptxSlideFiles (z : Zip) (f : String) :
    f ∈ pptxSlideFiles z → (slideFileNum? f).isSome := by
  intro h
  unfold pptxSlideFiles at h
  rw [mem_sortByKey] at h
  exact (List.mem_filter.mp h).2

/-! ### Correctness of the shared binary search -/

theorem searchLoopE_invariant
    (rebuild : Nat → Except String (List Nat)) (f : Nat → List Nat) (m hi : Nat)
    (hok : ∀ k, 1 ≤ k → k ≤ hi → rebuild k = .ok (f k))
    (hmono : ∀ i j, 1 ≤ i → i ≤ j → j ≤ hi → (f i).length ≤ (f j).length) :
    ∀ n : Nat, ∀ low high : Int, ∀ best : Option (List Nat),
      (high + 1 - low).toNat ≤ n →
      1 ≤ low → low ≤ high + 1 → high ≤ (hi : Int) →
      ((best = none ∧ low = 1) ∨
        (∃ kb : Nat, (kb : Int) = low - 1 ∧ 1 ≤ kb ∧ best = some (f kb) ∧
          (f kb).length ≤ m)) →
      (∀ j : Nat, (high : Int) < (j : Int) → j ≤ hi → ¬ ((f j).length ≤ m)) →
      (searchLoopE rebuild m n low high best = .ok none ∧
        ∀ j : Nat, 1 ≤ j → j ≤ hi → ¬ ((f j).length ≤ m)) ∨
      (∃ k : Nat, searchLoopE rebuild m n low high best = .ok (some (f k)) ∧
        1 ≤ k ∧ k ≤ hi ∧ (f k).length ≤ m ∧
        ∀ j : Nat, 1 ≤ j → j ≤ hi → (f j).length ≤ m → j ≤ k) := by
  intro n
  induction n with
  | zero =>
    intro low high best hn h1 h2 h3 hbest hfail
    simp only [searchLoopE]
    rcases hbest with ⟨hb, hl1⟩ | ⟨kb, hkb, h1kb, hb, hfitb⟩
    · left
      refine ⟨by rw [hb], fun j hj hjhi => hfail j (by omega) hjhi⟩
    · right
      refine ⟨kb, by rw [hb], h1kb, by omega, hfitb, ?_⟩
      intro j hj hjhi hjfit
      by_cases hjh : (j : Int) ≤ high
      · omega
      · exact absurd hjfit (hfail j (by omega) hjhi)
  | succ n ih =>
    intro low high best hn h1 h2 h3 hbest hfail
    by_cases hlh : low ≤ high
    · simp only [searchLoopE]
      rw [if_pos hlh]
      set mid : Int := (low + high) / 2 with hmid
      have hmb : low ≤ mid ∧ mid ≤ high := by omega
      have h1m : 1 ≤ mid.toNat := by omega
      have hmhi : mid.toNat ≤ hi := by omega
      have hmcast : (mid.toNat : Int) = mid := by omega
      rw [hok mid.toNat h1m hmhi]
      dsimp only
      by_cases hfit : (f mid.toNat).length ≤ m
      · rw [if_pos hfit]
        exact ih (mid + 1) high (some (f mid.toNat)) (by omega) (by omega)
          (by omega) h3
          (Or.inr ⟨mid.toNat, by omega, h1m, rfl, hfit⟩) hfail
      · rw [if_neg hfit]
        refine ih low (mid - 1) best (by omega) h1 (by omega) (by omega) hbest ?_
        intro j hj hjhi
        by_cases hjh : (j : Int) ≤ high
        · have hmj : mid.toNat ≤ j := by omega
          intro hle
          exact hfit (le_trans (hmono mid.toNat j h1m hmj hjhi) hle)
        · exact hfail j (by omega) hjhi
    · simp only [searchLoopE]
      rw [if_neg hlh]
      rcases hbest with ⟨hb, hl1⟩ | ⟨kb, hkb, h1kb, hb, hfitb⟩
      · left
        refine ⟨by rw [hb], fun j hj hjhi => hfail j (by omega) hjhi⟩
      · right
        refine ⟨kb, by rw [hb], h1kb, by omega, hfitb, ?_⟩
        intro j hj hjhi hjfit
        by_cases hjh : (j : Int) ≤ high
        · omega
        · exact absurd hjfit (hfail j (by omega) hjhi)

theorem runSearch_found
    (rebuild : Nat → Except String (List Nat)) (f : Nat → List Nat) (m hi : Nat)
    (hok : ∀ k, 1 ≤ k → k ≤ hi → rebuild k = .ok (f k))
    (hmono : ∀ i j, 1 ≤ i → i ≤ j → j ≤ hi → (f i).length ≤ (f j).length)
    (hex : ∃ k, 1 ≤ k ∧ k ≤ hi ∧ (f k).length ≤ m) :
    ∃ k, runSearch rebuild m hi = .ok (f k) ∧ 1 ≤ k ∧ k ≤ hi ∧
      (f k).length ≤ m ∧
      ∀ j, 1 ≤ j → j ≤ hi → (f j).length ≤ m → j ≤ k := by
  have h := searchLoopE_invariant rebuild f m hi hok hmono
    (hi + 1) 1 (hi : Int) none (by omega) (by omega)
    (by omega) (by omega) (Or.inl ⟨rfl, rfl⟩)
    (fun j hj hjhi => by omega)
  rcases h with ⟨heq, hall⟩ | ⟨k, heq, h1k, hkhi, hkfit, hmax⟩
  · obtain ⟨k, h1k, hkhi, hkfit⟩ := hex
    exact absurd hkfit (hall k h1k hkhi)
  · refine ⟨k, ?_, h1k, hkhi, hkfit, hmax⟩
    unfold runSearch
    rw [heq]
    rfl

theorem runSearch_fallback
    (rebuild : Nat → Except String (List Nat)) (f : Nat → List Nat) (m hi : Nat)
    (hok : ∀ k, 1 ≤ k → k ≤ max hi 1 → rebuild k = .ok (f k))
    (hmono : ∀ i j, 1 ≤ i → i ≤ j → j ≤ hi → (f i).length ≤ (f j).length)
    (hnone : ∀ k, 1 ≤ k → k ≤ hi → ¬ ((f k).length ≤ m)) :
    runSearch rebuild m hi = .ok (f 1) := by
  have h := searchLoopE_invariant rebuild f m hi
    (fun k h1 h2 => hok k h1 (by omega)) hmono
    (hi + 1) 1 (hi : Int) none (by omega) (by omega)
    (by omega) (by omega) (Or.inl ⟨rfl, rfl⟩)
    (fun j hj hjhi => by omega)
  rcases h with ⟨heq, _⟩ | ⟨k, heq, h1k, hkhi, hkfit, _⟩
  · unfold runSearch
    rw [heq]
    exact hok 1 (by omega) (by omega)
  · exact absurd hkfit (hnone k h1k hkhi)

theorem searchLoopE_mem (rebuild : Nat → Except String (List Nat)) (m : Nat) :
    ∀ n : Nat, ∀ low high : Int, ∀ best : Option (List Nat),
      1 ≤ low →
      (best = none ∨ ∃ k b, 1 ≤ k ∧ rebuild k = .ok b ∧ best = some b) →
      ∀ r, searchLoopE rebuild m n low high best = .ok r →
      (r = none ∨ ∃ k b, 1 ≤ k ∧ rebuild k = .ok b ∧ r = some b) := by
  intro n
  induction n with
  | zero =>
    intro low high best h1 hbest r hr
    simp only [searchLoopE] at hr
    cases hr
    exact hbest
  | succ n ih =>
    intro low high best h1 hbest r hr
    by_cases hlh : low ≤ high
    · simp only [searchLoopE] at hr
      rw [if_pos hlh] at hr
      set mid : Int := (low + high) / 2 with hmid
      have hmb : low ≤ mid ∧ mid ≤ high := by omega
      have h1m : 1 ≤ mid.toNat := by omega
      cases hre : rebuild mid.toNat with
      | error e => rw [hre] at hr; cases hr
      | ok bytes =>
        rw [hre] at hr
        dsimp only at hr
        by_cases hfit : bytes.length ≤ m
        · rw [if_pos hfit] at hr
          exact ih (mid + 1) high (some bytes) (by omega)
            (Or.inr ⟨mid.toNat, bytes, h1m, hre, rfl⟩) r hr
        · rw [if_neg hfit] at hr
          exact ih low (mid - 1) best h1 hbest r hr
    · simp only [searchLoopE] at hr
      rw [if_neg hlh] at hr
      cases hr
      exact hbest

theorem runSearch_mem (rebuild : Nat → Except String (List Nat)) (m hi : Nat)
    (b : List Nat) (h : runSearch rebuild m hi = .ok b) :
    ∃ k, 1 ≤ k ∧ rebuild k = .ok b := by
  unfold runSearch at h
  cases hs : searchLoopE rebuild m (hi + 1) 1 (hi : Int) none with
  | error e => rw [hs] at h; cases h
  | ok r =>
    rw [hs] at h
    have := searchLoopE_mem rebuild m (hi + 1) 1 (hi : Int)
      none (by omega) (Or.inl rfl) r hs
    rcases this with hr | ⟨k, bb, h1k, hre, hbb⟩
    · subst hr
      exact ⟨1, by omega, h⟩
    · subst hbb
      cases h
      exact ⟨k, h1k, hre⟩

/-! ### Spec-side view of reference collection

The spec speaks of IDs "referenced anywhere in the surviving primary
part"; to state that independently of the collector implementation, the
set of all objects of a tree is defined and both collectors are
characterised against it. -/

mutual
def subnodes : Xml → List Xml
  | .node attrs kids => .node attrs kids :: subnodesKids kids
def subnodesKids : List (String × List Xml) → List Xml
  | [] => []
  | (_, items) :: rest => subnodesList items ++ subnodesKids rest
def subnodesList : List Xml → List Xml
  | [] => []
  | x :: xs => subnodes x ++ subnodesList xs
end

/-- The object `y` carries a relationship-reference attribute (`r:id`,
`r:embed` or `r:link`) whose value is `i`. -/
def relAttrHit (y : Xml) (i : String) : Prop :=
  ∃ a ∈ y.attrsOf, (a.1 = "r:id" ∨ a.1 = "r:embed" ∨ a.1 = "r:link") ∧ a.2 = i

/-- The relationship ID `i` is referenced somewhere in the tree `x`. -/
def xmlRefersTo (x : Xml) (i : String) : Prop :=
  ∃ y ∈ subnodes x, relAttrHit y i

/-- Some object of `y` named `elementName` carries a truthy `attrName`
attribute with value `i`. -/
def elemHit (elementName attrName : String) (y : Xml) (i : String) : Prop :=
  ∃ e ∈ getKids y elementName, e.attr attrName = some i ∧ i ≠ ""

/-- The ID `i` is referenced from some `elementName` element anywhere in
the tree `x` (the spec-side reading of satellite-part references). -/
def xmlHasRefEl (elementName attrName : String) (x : Xml) (i : String) : Prop :=
  ∃ y ∈ subnodes x, elemHit elementName attrName y i

mutual
theorem mem_collectRelationshipIds : ∀ (x : Xml) (i : String),
    i ∈ collectRelationshipIds x ↔ ∃ y ∈ subnodes x, relAttrHit y i
  | .node attrs kids, i => by
    simp only [collectRelationshipIds, subnodes, List.mem_append, List.mem_cons,
      List.mem_filterMap]
    constructor
    · rintro (⟨a, ha, hpick⟩ | hrec)
      · refine ⟨.node attrs kids, Or.inl rfl, a, ha, ?_⟩
        by_cases hn : a.1 = "r:id" ∨ a.1 = "r:embed" ∨ a.1 = "r:link"
        · rw [if_pos hn] at hpick
          cases hpick
          exact ⟨hn, rfl⟩
        · rw [if_neg hn] at hpick
          cases hpick
      · obtain ⟨y, hy, hhit⟩ := (mem_collectRelIdsKids kids i).mp hrec
        exact ⟨y, Or.inr hy, hhit⟩
    · rintro ⟨y, hy | hy, hhit⟩
      · subst hy
        obtain ⟨a, ha, hn, hv⟩ := hhit
        exact Or.inl ⟨a, ha, by rw [if_pos hn, hv]⟩
      · exact Or.inr ((mem_collectRelIdsKids kids i).mpr ⟨y, hy, hhit⟩)
theorem mem_collectRelIdsKids : ∀ (kids : List (String × List Xml)) (i : String),
    i ∈ collectRelIdsKids kids ↔ ∃ y ∈ subnodesKids kids, relAttrHit y i
  | [], i => by simp [collectRelIdsKids, subnodesKids]
  | (s, items) :: rest, i => by
    simp only [collectRelIdsKids, subnodesKids, List.mem_append,
      mem_collectRelIdsList items i, mem_collectRelIdsKids rest i]
    constructor
    · rintro (⟨y, hy, hhit⟩ | ⟨y, hy, hhit⟩)
      · exact ⟨y, Or.inl hy, hhit⟩
      · exact ⟨y, Or.inr hy, hhit⟩
    · rintro ⟨y, hy | hy, hhit⟩
      · exact Or.inl ⟨y, hy, hhit⟩
      · exact Or.inr ⟨y, hy, hhit⟩
theorem mem_collectRelIdsList : ∀ (l : List Xml) (i : String),
    i ∈ collectRelIdsList l ↔ ∃ y ∈ subnodesList l, relAttrHit y i
  | [], i => by simp [collectRelIdsList, subnodesList]
  | x :: xs, i => by
    simp only [collectRelIdsList, subnodesList, List.mem_append,
      mem_collectRelationshipIds x i, mem_collectRelIdsList xs i]
    constructor
    · rintro (⟨y, hy, hhit⟩ | ⟨y, hy, hhit⟩)
      · exact ⟨y, Or.inl hy, hhit⟩
      · exact ⟨y, Or.inr hy, hhit⟩
    · rintro ⟨y, hy | hy, hhit⟩
      · exact Or.inl ⟨y, hy, hhit⟩
      · exact Or.inr ⟨y, hy, hhit⟩
end

mutual
theorem mem_collectElementIds : ∀ (el an : String) (x : Xml) (i : String),
    i ∈ collectElementIds el an x ↔ ∃ y ∈ subnodes x, elemHit el an y i
  | el, an, .node attrs kids, i => by
    simp only [collectElementIds, subnodes, List.mem_append, List.mem_cons,
      List.mem_filterMap]
    constructor
    · rintro (⟨e, he, hpick⟩ | hrec)
      · refine ⟨.node attrs kids, Or.inl rfl, e, he, ?_⟩
        cases hat : e.attr an with
        | none => rw [hat] at hpick; cases hpick
        | some v =>
          rw [hat] at hpick
          dsimp only at hpick
          by_cases hv : v ≠ ""
          · rw [if_pos hv] at hpick
            cases hpick
            exact ⟨rfl, hv⟩
          · rw [if_neg hv] at hpick
            cases hpick
      · obtain ⟨y, hy, hhit⟩ := (mem_collectElemIdsKids el an kids i).mp hrec
        exact ⟨y, Or.inr hy, hhit⟩
    · rintro ⟨y, hy | hy, hhit⟩
      · subst hy
        obtain ⟨e, he, hat, hne⟩ := hhit
        refine Or.inl ⟨e, he, ?_⟩
        rw [hat]
        dsimp only
        rw [if_pos hne]
      · exact Or.inr ((mem_collectElemIdsKids el an kids i).mpr ⟨y, hy, hhit⟩)
theorem mem_collectElemIdsKids : ∀ (el an : String)
    (kids : List (String × List Xml)) (i : String),
    i ∈ collectElemIdsKids el an kids ↔ ∃ y ∈ subnodesKids kids, elemHit el an y i
  | el, an, [], i => by simp [collectElemIdsKids, subnodesKids]
  | el, an, (s, items) :: rest, i => by
    simp only [collectElemIdsKids, subnodesKids, List.mem_append,
      mem_collectElemIdsList el an items i, mem_collectElemIdsKids el an rest i]
    constructor
    · rintro (⟨y, hy, hhit⟩ | ⟨y, hy, hhit⟩)
      · exact ⟨y, Or.inl hy, hhit⟩
      · exact ⟨y, Or.inr hy, hhit⟩
    · rintro ⟨y, hy | hy, hhit⟩
      · exact Or.inl ⟨y, hy, hhit⟩
      · exact Or.inr ⟨y, hy, hhit⟩
theorem mem_collectElemIdsList : ∀ (el an : String) (l : List Xml) (i : String),
    i ∈ collectElemIdsList el an l ↔ ∃ y ∈ subnodesList l, elemHit el an y i
  | el, an, [], i => by simp [collectElemIdsList, subnodesList]
  | el, an, x :: xs, i => by
    simp only [collectElemIdsList, subnodesList, List.mem_append,
      mem_collectElementIds el an x i, mem_collectElemIdsList el an xs i]
    constructor
    · rintro (⟨y, hy, hhit⟩ | ⟨y, hy, hhit⟩)
      · exact ⟨y, Or.inl hy, hhit⟩
      · exact ⟨y, Or.inr hy, hhit⟩
    · rintro ⟨y, hy | hy, hhit⟩
      · exact Or.inl ⟨y, hy, hhit⟩
      · exact Or.inr ⟨y, hy, hhit⟩
end

/-! ### The backward whitespace scan -/

theorem find?_rev_range'_some (p : Nat → Bool) (s n i : Nat)
    (h : (List.range' s n).reverse.find? p = some i) :
    s ≤ i ∧ i < s + n ∧ p i = true ∧
      ∀ j, i < j → j < s + n → p j = false := by
  induction n with
  | zero => simp at h
  | succ n ih =>
    rw [List.range'_concat, List.reverse_append] at h
    simp only [List.reverse_singleton, List.singleton_append, List.find?_cons] at h
    cases hp : p (s + 1 * n) with
    | true =>
      rw [hp] at h
      cases h
      refine ⟨by omega, by omega, by simpa using hp, ?_⟩
      intro j hj1 hj2
      omega
    | false =>
      rw [hp] at h
      obtain ⟨h1, h2, h3, h4⟩ := ih h
      refine ⟨h1, by omega, h3, ?_⟩
      intro j hj1 hj2
      by_cases hj : j < s + n
      · exact h4 j hj1 hj
      · have : j = s + n := by omega
        subst this
        simpa using hp

theorem find?_rev_range'_none (p : Nat → Bool) (s n : Nat)
    (h : (List.range' s n).reverse.find? p = none) :
    ∀ j, s ≤ j → j < s + n → p j = false := by
  intro j hj1 hj2
  have := List.find?_eq_none.mp h j (by
    rw [List.mem_reverse, List.mem_range']
    exact ⟨j - s, by omega, by omega⟩)
  simpa using this

theorem bestBreakPoint_spec (tb : List Nat) (ms : Nat) :
    (∃ i, ms - min 1024 ms ≤ i ∧ i < ms ∧ isBreakByte (tb.getD i 0) = true ∧
      (∀ j, i < j → j < ms → isBreakByte (tb.getD j 0) = false) ∧
      bestBreakPoint tb ms = i + 1)
    ∨ ((∀ j, ms - min 1024 ms ≤ j → j < ms → isBreakByte (tb.getD j 0) = false) ∧
      bestBreakPoint tb ms = ms) := by
  unfold bestBreakPoint
  dsimp only
  cases hf : (List.range' (ms - min 1024 ms) (ms - (ms - min 1024 ms))).reverse.find?
      (fun i => isBreakByte (tb.getD i 0)) with
  | none =>
    right
    have := find?_rev_range'_none _ _ _ hf
    exact ⟨fun j hj1 hj2 => this j hj1 (by omega), rfl⟩
  | some i =>
    left
    obtain ⟨h1, h2, h3, h4⟩ := find?_rev_range'_some _ _ _ _ hf
    exact ⟨i, h1, by omega, h3, fun j hj1 hj2 => h4 j hj1 (by omega), rfl⟩

/-! ### Reduction helpers for the Except monad -/

theorem ok_bind {α β ε : Type} (a : α) (f : α → Except ε β) :
    (Except.ok a >>= f) = f a := rfl

theorem error_bind {α β ε : Type} (e : ε) (f : α → Except ε β) :
    ((Except.error e : Except ε α) >>= f) = Except.error e := rfl

theorem pure_eq_ok {α ε : Type} (a : α) : (pure a : Except ε α) = Except.ok a := rfl

theorem bindE_ok {α β ε : Type} (a : α) (f : α → Except ε β) :
    (Except.ok a : Except ε α).bind f = f a := rfl

theorem bindE_error {α β ε : Type} (e : ε) (f : α → Except ε β) :
    (Except.error e : Except ε α).bind f = Except.error e := rfl

theorem mapError_ok {α ε ε2 : Type} (a : α) (f : ε → ε2) :
    (Except.ok a : Except ε α).mapError f = Except.ok a := rfl

theorem mapError_error {α ε ε2 : Type} (e : ε) (f : ε → ε2) :
    (Except.error e : Except ε α).mapError f = Except.error (f e) := rfl

/-! ### Per-strategy facts used by several claims -/

theorem validateFileSize_ok (b : List Nat) (mime : String) (ms : Nat)
    (r : TruncationResult) (h : validateFileSize b mime ms = .ok r) :
    r = ⟨b, false, b.length, b.length⟩ := by
  unfold validateFileSize at h
  split at h
  · cases h
  · cases h
    rfl

theorem truncateTextFile_small (b : List Nat) (ms : Nat) (h : b.length ≤ ms) :
    truncateTextFile b ms = ⟨b, false, b.length, b.length⟩ := by
  unfold truncateTextFile
  rw [if_pos h]

theorem truncateTextFile_big (b : List Nat) (ms : Nat) (h : ¬ (b.length ≤ ms)) :
    truncateTextFile b ms =
      ⟨(b.take ms).take (bestBreakPoint (b.take ms) ms) ++ truncationNoteBytes, true,
        b.length,
        ((b.take ms).take (bestBreakPoint (b.take ms) ms) ++ truncationNoteBytes).length⟩ := by
  unfold truncateTextFile
  rw [if_neg h]

theorem truncateTextFile_final (b : List Nat) (ms : Nat) :
    (truncateTextFile b ms).finalSize = (truncateTextFile b ms).bytes.length := by
  by_cases h : b.length ≤ ms
  · rw [truncateTextFile_small b ms h]
  · rw [truncateTextFile_big b ms h]

theorem truncateTextFile_size_bound (b : List Nat) (ms : Nat) :
    (truncateTextFile b ms).finalSize
      ≤ max b.length (ms + truncationNoteBytes.length) := by
  by_cases h : b.length ≤ ms
  · rw [truncateTextFile_small b ms h]
    exact le_max_left _ _
  · rw [truncateTextFile_big b ms h]
    dsimp only
    refine le_max_of_le_right ?_
    rw [List.length_append]
    have h1 : ((b.take ms).take (bestBreakPoint (b.take ms) ms)).length ≤ ms := by
      have h2 : ((b.take ms).take (bestBreakPoint (b.take ms) ms)).length
          = min (bestBreakPoint (b.take ms) ms) (b.take ms).length :=
        List.length_take _ _
      have h3 : (b.take ms).length = min ms b.length := List.length_take ms b
      omega
    omega

theorem truncatePdfFile_unchanged (pdf : PdfFile) (b : List Nat) (mp ms : Nat)
    (h1 : pdf.pageCount ≤ mp) (h2 : b.length ≤ ms) :
    truncatePdfFile pdf b mp ms = .ok ⟨b, false, b.length, b.length⟩ := by
  unfold truncatePdfFile
  rw [if_pos ⟨h1, h2⟩]

theorem truncatePdfFile_search (pdf : PdfFile) (b : List Nat) (mp ms : Nat)
    (h : ¬ (pdf.pageCount ≤ mp ∧ b.length ≤ ms)) :
    truncatePdfFile pdf b mp ms =
      (runSearch (fun k => .ok (pdf.save k)) ms (min pdf.pageCount mp)).bind
        (fun bb => .ok ⟨bb, true, b.length, bb.length⟩) := by
  unfold truncatePdfFile
  rw [if_neg h]
  rfl

theorem truncatePptxFile_unchanged (zip : Zip) (b : List Nat) (mp ms : Nat)
    (ser : Zip → List Nat)
    (h1 : (pptxSlideFiles zip).length ≤ mp) (h2 : b.length ≤ ms) :
    truncatePptxFile zip b mp ms ser = .ok ⟨b, false, b.length, b.length⟩ := by
  unfold truncatePptxFile
  rw [if_pos ⟨h1, h2⟩]

theorem truncatePptxFile_search (zip : Zip) (b : List Nat) (mp ms : Nat)
    (ser : Zip → List Nat)
    (h : ¬ ((pptxSlideFiles zip).length ≤ mp ∧ b.length ≤ ms)) :
    truncatePptxFile zip b mp ms ser =
      (runSearch (fun k => truncatePptxToSlides zip k ser) ms
          (min (pptxSlideFiles zip).length mp)).bind
        (fun bb => .ok ⟨bb, true, b.length, bb.length⟩) := by
  unfold truncatePptxFile
  rw [if_neg h]
  rfl

theorem truncateDocxFile_eq (zip : Zip) (b : List Nat) (mp ms : Nat)
    (ppp : Option Nat) (ser : Zip → List Nat)
    (root body : Xml)
    (hroot : docxGetRoot zip = .ok root) (hbody : docxGetBody root = .ok body) :
    truncateDocxFile zip b mp ms ppp ser =
      (if (getKids body "w:p").length ≤ mp * ppp.getD DEFAULT_PARAGRAPHS_PER_PAGE
          ∧ b.length ≤ ms then
        .ok ⟨b, false, b.length, b.length⟩
      else
        (runSearch (fun k => truncateDocxToParagraphs zip k ser) ms
            (min (getKids body "w:p").length
              (mp * ppp.getD DEFAULT_PARAGRAPHS_PER_PAGE))).bind
          (fun bb => .ok ⟨bb, true, b.length, bb.length⟩)) := by
  unfold truncateDocxFile
  rw [hroot, ok_bind, hbody, ok_bind]
  dsimp only
  rfl

theorem truncateDocxFile_missing (zip : Zip) (b : List Nat) (mp ms : Nat)
    (ppp : Option Nat) (ser : Zip → List Nat)
    (h : zfile zip "word/document.xml" = none) :
    truncateDocxFile zip b mp ms ppp ser =
      .error "Invalid DOCX: missing document.xml" := by
  unfold truncateDocxFile docxGetRoot
  rw [h]
  rfl

/-! ### Dispatcher branch lemmas -/

theorem truncateFile_passthrough (env : Env) (b : List Nat) (mime : String)
    (opts : TruncationOptions)
    (h1 : mime ∉ PDF_MIME_TYPES) (h2 : mime ∉ TEXT_MIME_TYPES)
    (h4 : mime ≠ pptxMime) (h5 : mime ≠ docxMime) :
    truncateFile env b mime opts =
      validateFileSize b mime (opts.maxSizeBytes.getD DEFAULT_MAX_SIZE_BYTES) := by
  unfold truncateFile
  rw [if_neg (by simpa using h1), if_neg (by simpa using h2)]
  by_cases h3 : IMAGE_MIME_TYPES.contains mime
  · rw [if_pos h3]
  · rw [if_neg h3, if_neg h4, if_neg h5]
    by_cases h6 : BINARY_DOCUMENT_MIME_TYPES.contains mime
    · rw [if_pos h6]
    · rw [if_neg h6]

theorem truncateFile_text (env : Env) (b : List Nat) (mime : String)
    (opts : TruncationOptions)
    (h1 : mime ∉ PDF_MIME_TYPES) (h2 : mime ∈ TEXT_MIME_TYPES) :
    truncateFile env b mime opts =
      .ok (truncateTextFile b (opts.maxSizeBytes.getD DEFAULT_MAX_SIZE_BYTES)) := by
  unfold truncateFile
  rw [if_neg (by simpa using h1), if_pos (by simpa using h2)]

theorem truncateFile_pdf (env : Env) (b : List Nat) (opts : TruncationOptions) :
    truncateFile env b "application/pdf" opts =
      ((env.loadPdf b).bind (fun pdf =>
        truncatePdfFile pdf b (opts.maxPages.getD DEFAULT_MAX_PAGES)
          (opts.maxSizeBytes.getD DEFAULT_MAX_SIZE_BYTES))).mapError .failure := by
  unfold truncateFile
  rw [if_pos (by decide)]

theorem truncateFile_pptx (env : Env) (b : List Nat) (opts : TruncationOptions) :
    truncateFile env b pptxMime opts =
      ((env.loadZip b).bind (fun z =>
        truncatePptxFile z b (opts.maxPages.getD DEFAULT_MAX_PAGES)
          (opts.maxSizeBytes.getD DEFAULT_MAX_SIZE_BYTES) env.ser)).mapError .failure := by
  unfold truncateFile
  rw [if_neg (by decide), if_neg (by decide), if_neg (by decide), if_pos rfl]

theorem truncateFile_docx (env : Env) (b : List Nat) (opts : TruncationOptions) :
    truncateFile env b docxMime opts =
      ((env.loadZip b).bind (fun z =>
        truncateDocxFile z b (opts.maxPages.getD DEFAULT_MAX_PAGES)
          (opts.maxSizeBytes.getD DEFAULT_MAX_SIZE_BYTES)
          opts.paragraphsPerPage env.ser)).mapError .failure := by
  unfold truncateFile
  rw [if_neg (by decide), if_neg (by decide), if_neg (by decide),
    if_neg (by decide), if_pos rfl]

theorem mapError_failure_ne_tooLarge (x : Except String TruncationResult)
    (a m : Nat) (mt : String) :
    x.mapError TruncError.failure ≠ .error (.fileTooLarge a m mt) := by
  cases x with
  | ok r => rw [mapError_ok]; exact fun h => Except.noConfusion h
  | error e =>
    rw [mapError_error]
    intro h
    cases h

theorem truncatePdfFile_final (pdf : PdfFile) (b : List Nat) (mp ms : Nat)
    (r : TruncationResult) (h : truncatePdfFile pdf b mp ms = .ok r) :
    r.finalSize = r.bytes.length ∧ r.originalSize = b.length := by
  by_cases hpre : pdf.pageCount ≤ mp ∧ b.length ≤ ms
  · rw [truncatePdfFile_unchanged pdf b mp ms hpre.1 hpre.2] at h
    cases h
    exact ⟨rfl, rfl⟩
  · rw [truncatePdfFile_search pdf b mp ms hpre] at h
    cases hs : runSearch (fun k => .ok (pdf.save k)) ms (min pdf.pageCount mp) with
    | error e => rw [hs] at h; cases h
    | ok bb =>
      rw [hs] at h
      cases h
      exact ⟨rfl, rfl⟩

theorem truncatePptxFile_final (zip : Zip) (b : List Nat) (mp ms : Nat)
    (ser : Zip → List Nat) (r : TruncationResult)
    (h : truncatePptxFile zip b mp ms ser = .ok r) :
    r.finalSize = r.bytes.length ∧ r.originalSize = b.length := by
  by_cases hpre : (pptxSlideFiles zip).length ≤ mp ∧ b.length ≤ ms
  · rw [truncatePptxFile_unchanged zip b mp ms ser hpre.1 hpre.2] at h
    cases h
    exact ⟨rfl, rfl⟩
  · rw [truncatePptxFile_search zip b mp ms ser hpre] at h
    cases hs : runSearch (fun k => truncatePptxToSlides zip k ser) ms
        (min (pptxSlideFiles zip).length mp) with
    | error e => rw [hs] at h; cases h
    | ok bb =>
      rw [hs] at h
      cases h
      exact ⟨rfl, rfl⟩

theorem truncateDocxFile_final (zip : Zip) (b : List Nat) (mp ms : Nat)
    (ppp : Option Nat) (ser : Zip → List Nat) (r : TruncationResult)
    (h : truncateDocxFile zip b mp ms ppp ser = .ok r) :
    r.finalSize = r.bytes.length ∧ r.originalSize = b.length := by
  cases hroot : docxGetRoot zip with
  | error e =>
    unfold truncateDocxFile at h
    rw [hroot, error_bind] at h
    cases h
  | ok root =>
    cases hbody : docxGetBody root with
    | error e =>
      unfold truncateDocxFile at h
      rw [hroot, ok_bind, hbody, error_bind] at h
      cases h
    | ok body =>
      rw [truncateDocxFile_eq zip b mp ms ppp ser root body hroot hbody] at h
      split at h
      · cases h
        exact ⟨rfl, rfl⟩
      · cases hs : runSearch (fun k => truncateDocxToParagraphs zip k ser) ms
            (min (getKids body "w:p").length
              (mp * ppp.getD DEFAULT_PARAGRAPHS_PER_PAGE)) with
        | error e => rw [hs] at h; cases h
        | ok bb =>
          rw [hs] at h
          cases h
          exact ⟨rfl, rfl⟩

theorem truncateFile_final_eq (env : Env) (b : List Nat) (mime : String)
    (opts : TruncationOptions) (r : TruncationResult)
    (h : truncateFile env b mime opts = .ok r) :
    r.finalSize = r.bytes.length := by
  by_cases h1 : PDF_MIME_TYPES.contains mime
  · unfold truncateFile at h
    rw [if_pos h1] at h
    cases hl : env.loadPdf b with
    | error e => rw [hl, bindE_error, mapError_error] at h; cases h
    | ok pdf =>
      rw [hl, bindE_ok] at h
      cases hp : truncatePdfFile pdf b (opts.maxPages.getD DEFAULT_MAX_PAGES)
          (opts.maxSizeBytes.getD DEFAULT_MAX_SIZE_BYTES) with
      | error e => rw [hp, mapError_error] at h; cases h
      | ok r2 =>
        rw [hp, mapError_ok] at h
        cases h
        exact (truncatePdfFile_final _ _ _ _ _ hp).1
  · by_cases h2 : TEXT_MIME_TYPES.contains mime
    · rw [truncateFile_text env b mime opts (by simpa using h1) (by simpa using h2)] at h
      cases h
      exact truncateTextFile_final _ _
    · by_cases h4 : mime = pptxMime
      · subst h4
        rw [truncateFile_pptx] at h
        cases hl : env.loadZip b with
        | error e => rw [hl, bindE_error, mapError_error] at h; cases h
        | ok z =>
          rw [hl, bindE_ok] at h
          cases hp : truncatePptxFile z b (opts.maxPages.getD DEFAULT_MAX_PAGES)
              (opts.maxSizeBytes.getD DEFAULT_MAX_SIZE_BYTES) env.ser with
          | error e => rw [hp, mapError_error] at h; cases h
          | ok r2 =>
            rw [hp, mapError_ok] at h
            cases h
            exact (truncatePptxFile_final _ _ _ _ _ _ hp).1
      · by_cases h5 : mime = docxMime
        · subst h5
          rw [truncateFile_docx] at h
          cases hl : env.loadZip b with
          | error e => rw [hl, bindE_error, mapError_error] at h; cases h
          | ok z =>
            rw [hl, bindE_ok] at h
            cases hp : truncateDocxFile z b (opts.maxPages.getD DEFAULT_MAX_PAGES)
                (opts.maxSizeBytes.getD DEFAULT_MAX_SIZE_BYTES)
                opts.paragraphsPerPage env.ser with
            | error e => rw [hp, mapError_error] at h; cases h
            | ok r2 =>
              rw [hp, mapError_ok] at h
              cases h
              exact (truncateDocxFile_final _ _ _ _ _ _ _ hp).1
        · rw [truncateFile_passthrough env b mime opts (by simpa using h1)
            (by simpa using h2) h4 h5] at h
          rw [validateFileSize_ok b mime _ r h]

/-! ### Shared concrete material for witnesses and counterexamples -/

/-- A stub for the external loaders, used where a branch never consults
them. -/
def oracleStub : Env :=
  ⟨fun _ => .error "unused", fun _ => .error "unused", fun _ => []⟩

theorem truncateTextFile_orig (b : List Nat) (ms : Nat) :
    (truncateTextFile b ms).originalSize = b.length := by
  by_cases h : b.length ≤ ms
  · rw [truncateTextFile_small b ms h]
  · rw [truncateTextFile_big b ms h]

/-! ### Claims -/

/-- C2, counterexample: `truncateFile` on the text path can return
`finalSize > originalSize`: a 2-byte `application/xml` file truncated to
`maxSizeBytes = 1` comes back with the 43-byte notice appended, so
`finalSize = 44 > 2 = originalSize`, violating the claimed monotonic
shrink. -/
theorem C2_counterexample :
    truncateFile oracleStub [65, 65] "application/xml" ⟨none, some 1, none⟩ =
      .ok ⟨65 :: truncationNoteBytes, true, 2, 44⟩ ∧ ¬ (44 ≤ 2) := by
  exact ⟨rfl, by omega⟩

/-- C2 (amended): the monotonic shrink `finalSize ≤ originalSize` holds
for the size-validator passthrough paths; the text path guarantees only
`finalSize ≤ max originalSize (maxSizeBytes + notice length)` (the
appended notice can exceed a small input); the PDF/PPTX/DOCX paths
satisfy it whenever every rebuilt candidate is no larger than the
input. -/
theorem C2_shrink_amended :
    (∀ (env : Env) (b : List Nat) (mime : String) (opts : TruncationOptions)
      (r : TruncationResult),
      mime ∉ PDF_MIME_TYPES → mime ∉ TEXT_MIME_TYPES → mime ≠ pptxMime →
      mime ≠ docxMime → truncateFile env b mime opts = .ok r →
      r.finalSize ≤ r.originalSize) ∧
    (∀ (b : List Nat) (ms : Nat),
      (truncateTextFile b ms).finalSize
        ≤ max (truncateTextFile b ms).originalSize (ms + truncationNoteBytes.length)) ∧
    (∀ (pdf : PdfFile) (b : List Nat) (mp ms : Nat) (r : TruncationResult),
      (∀ k, 1 ≤ k → (pdf.save k).length ≤ b.length) →
      truncatePdfFile pdf b mp ms = .ok r → r.finalSize ≤ r.originalSize) ∧
    (∀ (zip : Zip) (b : List Nat) (mp ms : Nat) (ser : Zip → List Nat)
      (r : TruncationResult),
      (∀ k bb, 1 ≤ k → truncatePptxToSlides zip k ser = .ok bb →
        bb.length ≤ b.length) →
      truncatePptxFile zip b mp ms ser = .ok r → r.finalSize ≤ r.originalSize) ∧
    (∀ (zip : Zip) (b : List Nat) (mp ms : Nat) (ppp : Option Nat)
      (ser : Zip → List Nat) (r : TruncationResult),
      (∀ k bb, 1 ≤ k → truncateDocxToParagraphs zip k ser = .ok bb →
        bb.length ≤ b.length) →
      truncateDocxFile zip b mp ms ppp ser = .ok r →
      r.finalSize ≤ r.originalSize) := by
  refine ⟨?_, ?_, ?_, ?_, ?_⟩
  · intro env b mime opts r h1 h2 h4 h5 h
    rw [truncateFile_passthrough env b mime opts h1 h2 h4 h5] at h
    rw [validateFileSize_ok b mime _ r h]
  · intro b ms
    rw [truncateTextFile_orig]
    exact truncateTextFile_size_bound b ms
  · intro pdf b mp ms r hsave h
    by_cases hpre : pdf.pageCount ≤ mp ∧ b.length ≤ ms
    · rw [truncatePdfFile_unchanged pdf b mp ms hpre.1 hpre.2] at h
      cases h
      exact le_refl _
    · rw [truncatePdfFile_search pdf b mp ms hpre] at h
      cases hs : runSearch (fun k => .ok (pdf.save k)) ms (min pdf.pageCount mp) with
      | error e => rw [hs] at h; cases h
      | ok bb =>
        rw [hs] at h
        cases h
        obtain ⟨k, hk1, hkeq⟩ := runSearch_mem _ _ _ _ hs
        have : bb = pdf.save k := by
          have := hkeq
          simp only [Except.ok.injEq] at this
          exact this.symm
        rw [this]
        exact hsave k hk1
  · intro zip b mp ms ser r hsave h
    by_cases hpre : (pptxSlideFiles zip).length ≤ mp ∧ b.length ≤ ms
    · rw [truncatePptxFile_unchanged zip b mp ms ser hpre.1 hpre.2] at h
      cases h
      exact le_refl _
    · rw [truncatePptxFile_search zip b mp ms ser hpre] at h
      cases hs : runSearch (fun k => truncatePptxToSlides zip k ser) ms
          (min (pptxSlideFiles zip).length mp) with
      | error e => rw [hs] at h; cases h
      | ok bb =>
        rw [hs] at h
        cases h
        obtain ⟨k, hk1, hkeq⟩ := runSearch_mem _ _ _ _ hs
        exact hsave k bb hk1 hkeq
  · intro zip b mp ms ppp ser r hsave h
    cases hroot : docxGetRoot zip with
    | error e =>
      unfold truncateDocxFile at h
      rw [hroot, error_bind] at h
      cases h
    | ok root =>
      cases hbody : docxGetBody root with
      | error e =>
        unfold truncateDocxFile at h
        rw [hroot, ok_bind, hbody, error_bind] at h
        cases h
      | ok body =>
        rw [truncateDocxFile_eq zip b mp ms ppp ser root body hroot hbody] at h
        split at h
        · cases h
          exact le_refl _
        · cases hs : runSearch (fun k => truncateDocxToParagraphs zip k ser) ms
              (min (getKids body "w:p").length
                (mp * ppp.getD DEFAULT_PARAGRAPHS_PER_PAGE)) with
          | error e => rw [hs] at h; cases h
          | ok bb =>
            rw [hs] at h
            cases h
            obtain ⟨k, hk1, hkeq⟩ := runSearch_mem _ _ _ _ hs
            exact hsave k bb hk1 hkeq

/-- C2 witness: the amended PDF conjunct applied at a concrete document
whose rebuilds are all one byte. -/
theorem C2_witness :
    (⟨[0], true, 3, 1⟩ : TruncationResult).finalSize
      ≤ (⟨[0], true, 3, 1⟩ : TruncationResult).originalSize :=
  C2_shrink_amended.2.2.1 ⟨5, fun _ => [0]⟩ [0, 0, 0] 1 2 ⟨[0], true, 3, 1⟩
    (fun k hk => by show (1 : Nat) ≤ 3; decide) rfl

/-- C4: a document already within both limits is returned byte-identical
with `wasTruncated = false` on every strategy, and every returned result
satisfies `finalSize = bytes.length`. -/
theorem C4_idempotence :
    (∀ (b : List Nat) (ms : Nat), b.length ≤ ms →
      truncateTextFile b ms = ⟨b, false, b.length, b.length⟩) ∧
    (∀ (b : List Nat) (mime : String) (ms : Nat), b.length ≤ ms →
      validateFileSize b mime ms = .ok ⟨b, false, b.length, b.length⟩) ∧
    (∀ (pdf : PdfFile) (b : List Nat) (mp ms : Nat),
      pdf.pageCount ≤ mp → b.length ≤ ms →
      truncatePdfFile pdf b mp ms = .ok ⟨b, false, b.length, b.length⟩) ∧
    (∀ (zip : Zip) (b : List Nat) (mp ms : Nat) (ser : Zip → List Nat),
      (pptxSlideFiles zip).length ≤ mp → b.length ≤ ms →
      truncatePptxFile zip b mp ms ser = .ok ⟨b, false, b.length, b.length⟩) ∧
    (∀ (zip : Zip) (b : List Nat) (mp ms : Nat) (ppp : Option Nat)
      (ser : Zip → List Nat) (root body : Xml),
      docxGetRoot zip = .ok root → docxGetBody root = .ok body →
      (getKids body "w:p").length ≤ mp * ppp.getD DEFAULT_PARAGRAPHS_PER_PAGE →
      b.length ≤ ms →
      truncateDocxFile zip b mp ms ppp ser = .ok ⟨b, false, b.length, b.length⟩) ∧
    (∀ (env : Env) (b : List Nat) (mime : String) (opts : TruncationOptions)
      (r : TruncationResult), truncateFile env b mime opts = .ok r →
      r.finalSize = r.bytes.length) := by
  refine ⟨?_, ?_, ?_, ?_, ?_, ?_⟩
  · exact truncateTextFile_small
  · intro b mime ms h
    unfold validateFileSize
    rw [if_neg (by omega)]
  · intro pdf b mp ms h1 h2
    exact truncatePdfFile_unchanged pdf b mp ms h1 h2
  · intro zip b mp ms ser h1 h2
    exact truncatePptxFile_unchanged zip b mp ms ser h1 h2
  · intro zip b mp ms ppp ser root body hroot hbody h1 h2
    rw [truncateDocxFile_eq zip b mp ms ppp ser root body hroot hbody,
      if_pos ⟨h1, h2⟩]
  · exact truncateFile_final_eq

/-- C4 witness: the text conjunct applied at a concrete in-budget file. -/
theorem C4_witness : truncateTextFile [1, 2] 5 = ⟨[1, 2], false, 2, 2⟩ :=
  C4_idempotence.1 [1, 2] 5 (by decide)

/-- C5: on oversized text input the truncator returns the
`maxSizeBytes`-byte prefix cut just after the last newline, carriage
return or space occurring in the final `min 1024 maxSizeBytes` bytes of
that prefix (or the whole prefix when none occurs there), followed by the
fixed notice; hence `wasTruncated = true` and
`finalSize ≤ maxSizeBytes + notice length`. -/
theorem C5_text_truncation (b : List Nat) (ms : Nat) (h : b.length > ms) :
    (truncateTextFile b ms).wasTruncated = true ∧
    (truncateTextFile b ms).originalSize = b.length ∧
    (truncateTextFile b ms).finalSize ≤ ms + truncationNoteBytes.length ∧
    ((∃ i, ms - min 1024 ms ≤ i ∧ i < ms ∧
        isBreakByte ((b.take ms).getD i 0) = true ∧
        (∀ j, i < j → j < ms → isBreakByte ((b.take ms).getD j 0) = false) ∧
        (truncateTextFile b ms).bytes =
          (b.take ms).take (i + 1) ++ truncationNoteBytes)
      ∨ ((∀ j, ms - min 1024 ms ≤ j → j < ms →
          isBreakByte ((b.take ms).getD j 0) = false) ∧
        (truncateTextFile b ms).bytes = b.take ms ++ truncationNoteBytes)) := by
  have hnle : ¬ (b.length ≤ ms) := by omega
  refine ⟨by rw [truncateTextFile_big b ms hnle],
    by rw [truncateTextFile_big b ms hnle], ?_, ?_⟩
  · rw [truncateTextFile_big b ms hnle]
    dsimp only
    rw [List.length_append]
    have h2 : ((b.take ms).take (bestBreakPoint (b.take ms) ms)).length
        = min (bestBreakPoint (b.take ms) ms) (b.take ms).length :=
      List.length_take _ _
    have h3 : (b.take ms).length = min ms b.length := List.length_take ms b
    omega
  · rw [truncateTextFile_big b ms hnle]
    dsimp only
    rcases bestBreakPoint_spec (b.take ms) ms with
      ⟨i, hi1, hi2, hi3, hi4, hbp⟩ | ⟨hall, hbp⟩
    · left
      exact ⟨i, hi1, hi2, hi3, hi4, by rw [hbp]⟩
    · right
      refine ⟨hall, ?_⟩
      rw [hbp]
      congr 1
      apply List.take_of_length_le
      rw [List.length_take]
      omega

/-- C5 witness: the text-truncation theorem applied at a concrete
oversized input. -/
theorem C5_witness : (truncateTextFile [65, 65] 1).wasTruncated = true :=
  (C5_text_truncation [65, 65] 1 (by decide)).1

/-- C9: any MIME type not dispatched to the PDF, text, PPTX or DOCX
strategies (images, non-OOXML binary documents, and unrecognized types)
goes through `validateFileSize`: it fails with the oversized-untruncatable
error carrying actual size, limit and MIME type exactly when the input
exceeds `maxSizeBytes`, and otherwise returns the input unchanged with
`wasTruncated = false`. -/
theorem C9_passthrough (env : Env) (b : List Nat) (mime : String)
    (opts : TruncationOptions)
    (h1 : mime ∉ PDF_MIME_TYPES) (h2 : mime ∉ TEXT_MIME_TYPES)
    (h4 : mime ≠ pptxMime) (h5 : mime ≠ docxMime) :
    (b.length > opts.maxSizeBytes.getD DEFAULT_MAX_SIZE_BYTES →
      truncateFile env b mime opts =
        .error (.fileTooLarge b.length
          (opts.maxSizeBytes.getD DEFAULT_MAX_SIZE_BYTES) mime)) ∧
    (b.length ≤ opts.maxSizeBytes.getD DEFAULT_MAX_SIZE_BYTES →
      truncateFile env b mime opts = .ok ⟨b, false, b.length, b.length⟩) := by
  rw [truncateFile_passthrough env b mime opts h1 h2 h4 h5]
  unfold validateFileSize
  constructor
  · intro h
    rw [if_pos h]
  · intro h
    rw [if_neg (by omega)]

/-- C9 witness: an oversized PNG is rejected with the
oversized-untruncatable error. -/
theorem C9_witness :
    truncateFile oracleStub [0, 0, 0] "image/png" ⟨none, some 2, none⟩ =
      .error (.fileTooLarge 3 2 "image/png") :=
  (C9_passthrough oracleStub [0, 0, 0] "image/png" ⟨none, some 2, none⟩
    (by decide) (by decide) (by decide) (by decide)).1 (by decide)

/-- C10: the DOCX and PPTX MIME types are both listed in
`BINARY_DOCUMENT_MIME_TYPES`, yet `truncateFile` never raises the
oversized-untruncatable `FileTooLargeError` for them: they are dispatched
to the structural strategies before that list is consulted, so any error
they surface is a strategy failure, never `fileTooLarge`. -/
theorem C10_ooxml_never_tooLarge (env : Env) (b : List Nat)
    (opts : TruncationOptions) (mime : String)
    (hm : mime = docxMime ∨ mime = pptxMime) :
    (docxMime ∈ BINARY_DOCUMENT_MIME_TYPES ∧
      pptxMime ∈ BINARY_DOCUMENT_MIME_TYPES) ∧
    ∀ a m mt, truncateFile env b mime opts ≠ .error (.fileTooLarge a m mt) := by
  refine ⟨⟨by decide, by decide⟩, ?_⟩
  intro a m mt
  rcases hm with h | h
  · subst h
    rw [truncateFile_docx]
    exact mapError_failure_ne_tooLarge _ a m mt
  · subst h
    rw [truncateFile_pptx]
    exact mapError_failure_ne_tooLarge _ a m mt

/-- C10 witness: applied to an arbitrarily large DOCX input. -/
theorem C10_witness :
    truncateFile oracleStub (List.replicate 100 0) docxMime ⟨none, some 1, none⟩
      ≠ .error (.fileTooLarge 100 1 docxMime) :=
  (C10_ooxml_never_tooLarge oracleStub (List.replicate 100 0)
    ⟨none, some 1, none⟩ docxMime (Or.inl rfl)).2 100 1 docxMime

/-- C1: whenever the serialized size of the rebuilt candidate is
non-decreasing in the unit count, each strategy's binary search returns
the candidate with the maximum k in [1, min(totalUnits, maxUnits)] whose
size fits `maxSizeBytes`, and the k = 1 candidate when none fits (so
never zero units).  The PPTX/DOCX conjuncts quantify over the family of
successful rebuilds `g`. -/
theorem C1_search_correctness :
    (∀ (pdf : PdfFile) (b : List Nat) (mp ms : Nat),
      ¬ (pdf.pageCount ≤ mp ∧ b.length ≤ ms) →
      (∀ i j, 1 ≤ i → i ≤ j → j ≤ min pdf.pageCount mp →
        (pdf.save i).length ≤ (pdf.save j).length) →
      ((∃ k, 1 ≤ k ∧ k ≤ min pdf.pageCount mp ∧ (pdf.save k).length ≤ ms) →
        ∃ k, truncatePdfFile pdf b mp ms =
            .ok ⟨pdf.save k, true, b.length, (pdf.save k).length⟩ ∧
          1 ≤ k ∧ k ≤ min pdf.pageCount mp ∧ (pdf.save k).length ≤ ms ∧
          ∀ j, 1 ≤ j → j ≤ min pdf.pageCount mp → (pdf.save j).length ≤ ms →
            j ≤ k) ∧
      ((∀ k, 1 ≤ k → k ≤ min pdf.pageCount mp → ¬ ((pdf.save k).length ≤ ms)) →
        truncatePdfFile pdf b mp ms =
          .ok ⟨pdf.save 1, true, b.length, (pdf.save 1).length⟩)) ∧
    (∀ (zip : Zip) (b : List Nat) (mp ms : Nat) (ser : Zip → List Nat)
      (g : Nat → List Nat),
      ¬ ((pptxSlideFiles zip).length ≤ mp ∧ b.length ≤ ms) →
      (∀ k, 1 ≤ k → truncatePptxToSlides zip k ser = .ok (g k)) →
      (∀ i j, 1 ≤ i → i ≤ j → j ≤ min (pptxSlideFiles zip).length mp →
        (g i).length ≤ (g j).length) →
      ((∃ k, 1 ≤ k ∧ k ≤ min (pptxSlideFiles zip).length mp ∧
          (g k).length ≤ ms) →
        ∃ k, truncatePptxFile zip b mp ms ser =
            .ok ⟨g k, true, b.length, (g k).length⟩ ∧
          1 ≤ k ∧ k ≤ min (pptxSlideFiles zip).length mp ∧ (g k).length ≤ ms ∧
          ∀ j, 1 ≤ j → j ≤ min (pptxSlideFiles zip).length mp →
            (g j).length ≤ ms → j ≤ k) ∧
      ((∀ k, 1 ≤ k → k ≤ min (pptxSlideFiles zip).length mp →
          ¬ ((g k).length ≤ ms)) →
        truncatePptxFile zip b mp ms ser =
          .ok ⟨g 1, true, b.length, (g 1).length⟩)) ∧
    (∀ (zip : Zip) (b : List Nat) (mp ms : Nat) (ppp : Option Nat)
      (ser : Zip → List Nat) (root body : Xml) (g : Nat → List Nat),
      docxGetRoot zip = .ok root → docxGetBody root = .ok body →
      ¬ ((getKids body "w:p").length ≤ mp * ppp.getD DEFAULT_PARAGRAPHS_PER_PAGE
          ∧ b.length ≤ ms) →
      (∀ k, 1 ≤ k → truncateDocxToParagraphs zip k ser = .ok (g k)) →
      (∀ i j, 1 ≤ i → i ≤ j →
        j ≤ min (getKids body "w:p").length
          (mp * ppp.getD DEFAULT_PARAGRAPHS_PER_PAGE) →
        (g i).length ≤ (g j).length) →
      ((∃ k, 1 ≤ k ∧
          k ≤ min (getKids body "w:p").length
            (mp * ppp.getD DEFAULT_PARAGRAPHS_PER_PAGE) ∧
          (g k).length ≤ ms) →
        ∃ k, truncateDocxFile zip b mp ms ppp ser =
            .ok ⟨g k, true, b.length, (g k).length⟩ ∧
          1 ≤ k ∧
          k ≤ min (getKids body "w:p").length
            (mp * ppp.getD DEFAULT_PARAGRAPHS_PER_PAGE) ∧
          (g k).length ≤ ms ∧
          ∀ j, 1 ≤ j →
            j ≤ min (getKids body "w:p").length
              (mp * ppp.getD DEFAULT_PARAGRAPHS_PER_PAGE) →
            (g j).length ≤ ms → j ≤ k) ∧
      ((∀ k, 1 ≤ k →
          k ≤ min (getKids body "w:p").length
            (mp * ppp.getD DEFAULT_PARAGRAPHS_PER_PAGE) →
          ¬ ((g k).length ≤ ms)) →
        truncateDocxFile zip b mp ms ppp ser =
          .ok ⟨g 1, true, b.length, (g 1).length⟩)) := by
  refine ⟨?_, ?_, ?_⟩
  · intro pdf b mp ms hpre hmono
    constructor
    · intro hex
      obtain ⟨k, heq, h1k, hkhi, hkfit, hmax⟩ :=
        runSearch_found (fun k => .ok (pdf.save k)) pdf.save ms
          (min pdf.pageCount mp) (fun k _ _ => rfl) hmono hex
      refine ⟨k, ?_, h1k, hkhi, hkfit, hmax⟩
      rw [truncatePdfFile_search pdf b mp ms hpre, heq]
      rfl
    · intro hnone
      rw [truncatePdfFile_search pdf b mp ms hpre,
        runSearch_fallback (fun k => .ok (pdf.save k)) pdf.save ms
          (min pdf.pageCount mp) (fun k _ _ => rfl) hmono hnone]
      rfl
  · intro zip b mp ms ser g hpre hok hmono
    constructor
    · intro hex
      obtain ⟨k, heq, h1k, hkhi, hkfit, hmax⟩ :=
        runSearch_found (fun k => truncatePptxToSlides zip k ser) g ms
          (min (pptxSlideFiles zip).length mp) (fun k h1 _ => hok k h1) hmono hex
      refine ⟨k, ?_, h1k, hkhi, hkfit, hmax⟩
      rw [truncatePptxFile_search zip b mp ms ser hpre, heq]
      rfl
    · intro hnone
      rw [truncatePptxFile_search zip b mp ms ser hpre,
        runSearch_fallback (fun k => truncatePptxToSlides zip k ser) g ms
          (min (pptxSlideFiles zip).length mp) (fun k h1 _ => hok k h1) hmono hnone]
      rfl
  · intro zip b mp ms ppp ser root body g hroot hbody hpre hok hmono
    constructor
    · intro hex
      obtain ⟨k, heq, h1k, hkhi, hkfit, hmax⟩ :=
        runSearch_found (fun k => truncateDocxToParagraphs zip k ser) g ms
          (min (getKids body "w:p").length
            (mp * ppp.getD DEFAULT_PARAGRAPHS_PER_PAGE))
          (fun k h1 _ => hok k h1) hmono hex
      refine ⟨k, ?_, h1k, hkhi, hkfit, hmax⟩
      rw [truncateDocxFile_eq zip b mp ms ppp ser root body hroot hbody,
        if_neg hpre, heq]
      rfl
    · intro hnone
      rw [truncateDocxFile_eq zip b mp ms ppp ser root body hroot hbody,
        if_neg hpre,
        runSearch_fallback (fun k => truncateDocxToParagraphs zip k ser) g ms
          (min (getKids body "w:p").length
            (mp * ppp.getD DEFAULT_PARAGRAPHS_PER_PAGE))
          (fun k h1 _ => hok k h1) hmono hnone]
      rfl

/-- A concrete five-page document whose k-page rebuild is 10k bytes. -/
def pdfW : PdfFile := ⟨5, fun k => List.replicate (10 * k) 0⟩

/-- C1 witness: with `maxPages = 3`, `maxSizeBytes = 25` and sizes
10, 20, 30, ... the search settles on k = 2. -/
theorem C1_witness :
    ∃ k, truncatePdfFile pdfW (List.replicate 60 0) 3 25 =
        .ok ⟨pdfW.save k, true, (List.replicate 60 (0 : Nat)).length,
          (pdfW.save k).length⟩ ∧
      1 ≤ k ∧ k ≤ min pdfW.pageCount 3 ∧ (pdfW.save k).length ≤ 25 ∧
      ∀ j, 1 ≤ j → j ≤ min pdfW.pageCount 3 → (pdfW.save j).length ≤ 25 →
        j ≤ k :=
  (C1_search_correctness.1 pdfW (List.replicate 60 0) 3 25 (by decide)
    (fun i j h1 h2 h3 => by
      simp only [pdfW, List.length_replicate]
      omega)).1
    ⟨2, by decide, by decide, by decide⟩

/-- C6, counterexample: a PPTX archive with no `ppt/presentation.xml`
(and over the byte budget, so the truncation path runs) is NOT rejected:
`truncatePptxFile` returns a result, because the missing primary part is
only skipped (`if (presXml)`), never checked.  Only the DOCX strategy
raises the fatal malformed-input error. -/
theorem C6_counterexample :
    zfile ([("a", Part.bin [0])] : Zip) "ppt/presentation.xml" = none ∧
    truncatePptxFile [("a", Part.bin [0])] [0, 0, 0] 100 1 (fun _ => [0]) =
      .ok ⟨[0], true, 3, 1⟩ :=
  ⟨rfl, rfl⟩

/-- C6 (amended): for DOCX a missing `word/document.xml` is a fatal
malformed-input error, both in the per-candidate editor and in the
strategy entry point; the PPTX strategy performs no such check on
`ppt/presentation.xml` and proceeds. -/
theorem C6_docx_missing_fatal (zip : Zip) (b : List Nat) (mp ms : Nat)
    (ppp : Option Nat) (ser : Zip → List Nat)
    (h : zfile zip "word/document.xml" = none) :
    truncateDocxFile zip b mp ms ppp ser =
      .error "Invalid DOCX: missing document.xml" ∧
    ∀ k, truncateDocxToParagraphs zip k ser =
      .error "Invalid DOCX: missing document.xml" := by
  refine ⟨truncateDocxFile_missing zip b mp ms ppp ser h, ?_⟩
  intro k
  unfold truncateDocxToParagraphs docxEditZip docxGetRoot
  rw [h]
  rfl

/-- C6 witness: the DOCX conjunct applied to an archive with no
document part. -/
theorem C6_witness :
    truncateDocxFile [] [] 1 1 none (fun _ => []) =
      .error "Invalid DOCX: missing document.xml" :=
  (C6_docx_missing_fatal [] [] 1 1 none (fun _ => []) rfl).1

/-! ### Decomposition of the DOCX edit pipeline -/

theorem docxStep2Rels_cases (z1 : Zip) (used : List String) (z2 : Zip)
    (rem : List String) (h : docxStep2Rels z1 used = .ok (z2, rem)) :
    (zreadXml z1 "word/_rels/document.xml.rels" = .ok none ∧ z2 = z1 ∧ rem = []) ∨
    (∃ rroot r rest,
      zreadXml z1 "word/_rels/document.xml.rels" = .ok (some rroot) ∧
      getKids rroot "Relationships" = r :: rest ∧
      z2 = zset z1 "word/_rels/document.xml.rels"
        (.xml (setKids rroot "Relationships"
          (setKids r "Relationship"
            ((relsListOf rroot).filter (docxKeepRel used)) :: rest))) ∧
      rem = docxRemovedTargets used (relsListOf rroot)) := by
  unfold docxStep2Rels at h
  cases hr : zreadXml z1 "word/_rels/document.xml.rels" with
  | error e => rw [hr, error_bind] at h; cases h
  | ok o =>
    rw [hr, ok_bind] at h
    cases o with
    | none =>
      cases h
      exact Or.inl ⟨rfl, rfl, rfl⟩
    | some rroot =>
      dsimp only at h
      cases hk : getKids rroot "Relationships" with
      | nil => rw [hk] at h; cases h
      | cons r rest =>
        rw [hk] at h
        cases h
        exact Or.inr ⟨rroot, r, rest, rfl, hk, rfl, rfl⟩

theorem docxStep2Rels_pres (z1 : Zip) (used : List String) (z2 : Zip)
    (rem : List String) (h : docxStep2Rels z1 used = .ok (z2, rem))
    (q : String) (hq : q ≠ "word/_rels/document.xml.rels") :
    zfile z2 q = zfile z1 q := by
  rcases docxStep2Rels_cases _ _ _ _ h with ⟨_, h2, _⟩ | ⟨rroot, r, rest, _, _, h2, _⟩
  · rw [h2]
  · rw [h2, zfile_zset, if_neg hq]

theorem docxStep3Remove_file (z2 : Zip) (rem : List String) (q : String) :
    zfile (docxStep3Remove z2 rem) q =
      if ∃ t ∈ rem, docxFullPath t = q then none else zfile z2 q := by
  unfold docxStep3Remove
  exact zfile_foldl_zremove docxFullPath rem z2 q

theorem docxStep4Ct_cases (z3 : Zip) (rem : List String) (z4 : Zip)
    (h : docxStep4Ct z3 rem = .ok z4) :
    (zreadXml z3 "[Content_Types].xml" = .ok none ∧ z4 = z3) ∨
    (∃ ct t rest,
      zreadXml z3 "[Content_Types].xml" = .ok (some ct) ∧
      getKids ct "Types" = t :: rest ∧
      z4 = zset z3 "[Content_Types].xml"
        (.xml (setKids ct "Types"
          (setKids t "Override"
            ((typesListOf ct).filter (fun o =>
              match o.attr "PartName" with
              | none => true
              | some pn =>
                !(rem.contains (if strStarts pn "/" then pn.drop 1 else pn)))) :: rest)))) := by
  unfold docxStep4Ct at h
  cases hr : zreadXml z3 "[Content_Types].xml" with
  | error e => rw [hr, error_bind] at h; cases h
  | ok o =>
    rw [hr, ok_bind] at h
    cases o with
    | none =>
      cases h
      exact Or.inl ⟨rfl, rfl⟩
    | some ct =>
      dsimp only at h
      cases hk : getKids ct "Types" with
      | nil => rw [hk] at h; cases h
      | cons t rest =>
        rw [hk] at h
        cases h
        exact Or.inr ⟨ct, t, rest, rfl, hk, rfl⟩

theorem docxStep4Ct_pres (z3 : Zip) (rem : List String) (z4 : Zip)
    (h : docxStep4Ct z3 rem = .ok z4) (q : String)
    (hq : q ≠ "[Content_Types].xml") : zfile z4 q = zfile z3 q := by
  rcases docxStep4Ct_cases _ _ _ h with ⟨_, h2⟩ | ⟨ct, t, rest, _, _, h2⟩
  · rw [h2]
  · rw [h2, zfile_zset, if_neg hq]

theorem cleanupNotesPart_cases (z : Zip) (path rootKey entryKey : String)
    (used : List String) (kp : Bool) (z' : Zip)
    (h : cleanupNotesPart z path rootKey entryKey used kp = .ok z') :
    (zreadXml z path = .ok none ∧ z' = z) ∨
    (∃ nroot r rest,
      zreadXml z path = .ok (some nroot) ∧
      getKids nroot rootKey = r :: rest ∧
      z' = zset z path
        (.xml (setKids nroot rootKey
          (setKids r entryKey
            ((getKids r entryKey).filter (notesKeep used kp)) :: rest)))) := by
  unfold cleanupNotesPart at h
  cases hr : zreadXml z path with
  | error e => rw [hr, error_bind] at h; cases h
  | ok o =>
    rw [hr, ok_bind] at h
    cases o with
    | none =>
      cases h
      exact Or.inl ⟨rfl, rfl⟩
    | some nroot =>
      dsimp only at h
      cases hk : getKids nroot rootKey with
      | nil => rw [hk] at h; cases h
      | cons r rest =>
        rw [hk] at h
        cases h
        exact Or.inr ⟨nroot, r, rest, rfl, hk, rfl⟩

theorem cleanupNotesPart_pres (z : Zip) (path rootKey entryKey : String)
    (used : List String) (kp : Bool) (z' : Zip)
    (h : cleanupNotesPart z path rootKey entryKey used kp = .ok z')
    (q : String) (hq : q ≠ path) : zfile z' q = zfile z q := by
  rcases cleanupNotesPart_cases _ _ _ _ _ _ _ h with ⟨_, h2⟩ | ⟨n, r, rest, _, _, h2⟩
  · rw [h2]
  · rw [h2, zfile_zset, if_neg hq]

theorem docxEditZip_parts (zip : Zip) (k : Nat) (z' : Zip)
    (h : docxEditZip zip k = .ok z') :
    ∃ root root' z2 rem z4 z5 z6,
      docxGetRoot zip = .ok root ∧
      docxEditRoot root k = .ok root' ∧
      docxStep2Rels (zset zip "word/document.xml" (.xml root'))
        (collectRelationshipIds root') = .ok (z2, rem) ∧
      docxStep4Ct (docxStep3Remove z2 rem) rem = .ok z4 ∧
      cleanupFootnotes z4 root' = .ok z5 ∧
      cleanupEndnotes z5 root' = .ok z6 ∧
      cleanupComments z6 root' = .ok z' := by
  unfold docxEditZip at h
  cases h1 : docxGetRoot zip with
  | error e => rw [h1, error_bind] at h; cases h
  | ok root =>
    rw [h1, ok_bind] at h
    cases h2 : docxEditRoot root k with
    | error e => rw [h2, error_bind] at h; cases h
    | ok root' =>
      rw [h2, ok_bind] at h
      dsimp only at h
      cases h3 : docxStep2Rels (zset zip "word/document.xml" (.xml root'))
          (collectRelationshipIds root') with
      | error e => rw [h3, error_bind] at h; cases h
      | ok pr =>
        obtain ⟨z2, rem⟩ := pr
        rw [h3, ok_bind] at h
        dsimp only at h
        cases h4 : docxStep4Ct (docxStep3Remove z2 rem) rem with
        | error e => rw [h4, error_bind] at h; cases h
        | ok z4 =>
          rw [h4, ok_bind] at h
          cases h5 : cleanupFootnotes z4 root' with
          | error e => rw [h5, error_bind] at h; cases h
          | ok z5 =>
            rw [h5, ok_bind] at h
            cases h6 : cleanupEndnotes z5 root' with
            | error e => rw [h6, error_bind] at h; cases h
            | ok z6 =>
              rw [h6, ok_bind] at h
              exact ⟨root, root', z2, rem, z4, z5, z6, rfl, h2, h3, h4, h5, h6, h⟩

theorem zxml_eq (z : Zip) (p : String) (t : Xml) :
    zxml z p = some t ↔ zfile z p = some (.xml t) := by
  unfold zxml
  cases h : zfile z p with
  | none => simp
  | some pt => cases pt <;> simp

theorem docxEditZip_doc (zip : Zip) (k : Nat) (z' : Zip)
    (h : docxEditZip zip k = .ok z') :
    ∃ root root', docxGetRoot zip = .ok root ∧ docxEditRoot root k = .ok root' ∧
      (zfile z' "word/document.xml" = none ∨
        zfile z' "word/document.xml" = some (.xml root')) := by
  obtain ⟨root, root', z2, rem, z4, z5, z6, h1, h2, h3, h4, h5, h6, h7⟩ :=
    docxEditZip_parts zip k z' h
  refine ⟨root, root', h1, h2, ?_⟩
  unfold cleanupComments at h7
  unfold cleanupEndnotes at h6
  unfold cleanupFootnotes at h5
  have e7 := cleanupNotesPart_pres _ _ _ _ _ _ _ h7 "word/document.xml" (by decide)
  have e6 := cleanupNotesPart_pres _ _ _ _ _ _ _ h6 "word/document.xml" (by decide)
  have e5 := cleanupNotesPart_pres _ _ _ _ _ _ _ h5 "word/document.xml" (by decide)
  have e4 := docxStep4Ct_pres _ _ _ h4 "word/document.xml" (by decide)
  have e3 := docxStep3Remove_file z2 rem "word/document.xml"
  have e2 := docxStep2Rels_pres _ _ _ _ h3 "word/document.xml" (by decide)
  have e1 : zfile (zset zip "word/document.xml" (.xml root')) "word/document.xml"
      = some (.xml root') := by
    rw [zfile_zset, if_pos rfl]
  rw [e7, e6, e5, e4, e3]
  split
  · exact Or.inl rfl
  · rw [e2, e1]
    exact Or.inr rfl

/-- C7, counterexample: with 49 paragraphs, 49 tables and `k = 1`, the
code keeps `Math.floor(49 * (1 / 49)) = 0` tables in double arithmetic,
while the claim's exact `floor(49 * 1 / 49)` is `1`. -/
theorem C7_counterexample :
    (docxEditZip
        [("word/document.xml", Part.xml (.node []
          [("w:document", [.node [] [("w:body", [.node []
            [("w:p", List.replicate 49 (.node [] [])),
             ("w:tbl", List.replicate 49 (.node [] []))]])]])]))] 1).map
      (fun z => (zxml z "word/document.xml").map (fun r =>
        (getKids ((getKids ((getKids r "w:document").getD 0 (.node [] []))
            "w:body").getD 0 (.node [] [])) "w:tbl").length))
      = .ok (some 0) ∧
    jsKeepTables 1 49 49 = 0 ∧ ¬ ((49 * 1) / 49 = 0) := by
  refine ⟨?_, ?_, by decide⟩
  · rfl
  · rfl

theorem docxGetRoot_of_zxml (zip : Zip) (root₀ : Xml)
    (hin : zxml zip "word/document.xml" = some root₀) :
    docxGetRoot zip = .ok root₀ := by
  unfold docxGetRoot
  rw [(zxml_eq _ _ _).mp hin]

theorem docxEditRoot_eq (root d : Xml) (drest : List Xml) (b : Xml)
    (brest : List Xml) (k : Nat)
    (hd : getKids root "w:document" = d :: drest)
    (hb : getKids d "w:body" = b :: brest) :
    docxEditRoot root k = .ok (setKids root "w:document"
      (setKids d "w:body" (docxEditBody b k :: brest) :: drest)) := by
  unfold docxEditRoot
  rw [hd]
  dsimp only
  rw [hb]

theorem docxEditBody_spec (b : Xml) (k : Nat)
    (hk : k < (getKids b "w:p").length) :
    getKids (docxEditBody b k) "w:p" = (getKids b "w:p").take k ∧
    getKids (docxEditBody b k) "w:tbl" = (getKids b "w:tbl").take
      (jsKeepTables k (getKids b "w:p").length (getKids b "w:tbl").length) ∧
    (∀ s srest, getKids b "w:sectPr" = s :: srest →
      getKids (docxEditBody b k) "w:sectPr" = [s]) ∧
    (getKids b "w:sectPr" = [] → getKids (docxEditBody b k) "w:sectPr" = []) := by
  unfold docxEditBody
  dsimp only
  rw [if_pos hk]
  by_cases htbl : 0 < (getKids b "w:tbl").length
  · rw [if_pos ⟨hk, htbl⟩]
    cases hsect : (getKids b "w:sectPr").head? with
    | some s =>
      refine ⟨?_, ?_, ?_, ?_⟩
      · rw [getKids_setKids, if_neg (by decide), getKids_setKids,
          if_neg (by decide), getKids_setKids, if_pos rfl]
      · rw [getKids_setKids, if_neg (by decide), getKids_setKids, if_pos rfl]
      · intro s2 srest hs2
        rw [hs2] at hsect
        simp only [List.head?_cons, Option.some.injEq] at hsect
        rw [getKids_setKids, if_pos rfl, hsect]
      · intro hnil
        rw [hnil] at hsect
        cases hsect
    | none =>
      refine ⟨?_, ?_, ?_, ?_⟩
      · rw [getKids_setKids, if_neg (by decide), getKids_setKids, if_pos rfl]
      · rw [getKids_setKids, if_pos rfl]
      · intro s2 srest hs2
        rw [hs2] at hsect
        cases hsect
      · intro hnil
        rw [getKids_setKids, if_neg (by decide), getKids_setKids,
          if_neg (by decide)]
        exact hnil
  · rw [if_neg (fun hcon => htbl hcon.2)]
    have htblnil : getKids b "w:tbl" = [] :=
      List.length_eq_zero.mp (by omega)
    cases hsect : (getKids b "w:sectPr").head? with
    | some s =>
      refine ⟨?_, ?_, ?_, ?_⟩
      · rw [getKids_setKids, if_neg (by decide), getKids_setKids, if_pos rfl]
      · rw [getKids_setKids, if_neg (by decide), getKids_setKids,
          if_neg (by decide), htblnil, List.take_nil]
      · intro s2 srest hs2
        rw [hs2] at hsect
        simp only [List.head?_cons, Option.some.injEq] at hsect
        rw [getKids_setKids, if_pos rfl, hsect]
      · intro hnil
        rw [hnil] at hsect
        cases hsect
    | none =>
      refine ⟨?_, ?_, ?_, ?_⟩
      · rw [getKids_setKids, if_pos rfl]
      · rw [getKids_setKids, if_neg (by decide), htblnil, List.take_nil]
      · intro s2 srest hs2
        rw [hs2] at hsect
        cases hsect
      · intro hnil
        rw [getKids_setKids, if_neg (by decide)]
        exact hnil

/-- C7 (amended): when the per-candidate DOCX editor keeps
`k < totalParagraphs` paragraphs, the surviving document body holds
exactly the first k paragraph elements, exactly the first
`Math.floor(tableCount * (k / totalParagraphs))` table elements — the
count computed in JS double-precision arithmetic, which can differ from
the exact `floor(tableCount * k / totalParagraphs)` (e.g. at 49
paragraphs, 49 tables, k = 1 it keeps 0, not 1) — and the first section
properties element verbatim. -/
theorem C7_docx_body (zip : Zip) (k : Nat) (z' : Zip) (root₀ d : Xml)
    (drest : List Xml) (b : Xml) (brest : List Xml) (r1 : Xml)
    (h : docxEditZip zip k = .ok z')
    (hin : zxml zip "word/document.xml" = some root₀)
    (hd : getKids root₀ "w:document" = d :: drest)
    (hb : getKids d "w:body" = b :: brest)
    (hk : k < (getKids b "w:p").length)
    (hout : zxml z' "word/document.xml" = some r1) :
    ∃ bodyOut, docxGetBody r1 = .ok bodyOut ∧
      getKids bodyOut "w:p" = (getKids b "w:p").take k ∧
      getKids bodyOut "w:tbl" = (getKids b "w:tbl").take
        (jsKeepTables k (getKids b "w:p").length (getKids b "w:tbl").length) ∧
      (∀ s srest, getKids b "w:sectPr" = s :: srest →
        getKids bodyOut "w:sectPr" = [s]) ∧
      (getKids b "w:sectPr" = [] → getKids bodyOut "w:sectPr" = []) := by
  obtain ⟨root, root', h1, h2, hdoc⟩ := docxEditZip_doc zip k z' h
  have hroot0 : root = root₀ := by
    have := docxGetRoot_of_zxml zip root₀ hin
    rw [this] at h1
    exact (Except.ok.inj h1).symm
  have h2a : docxEditRoot root₀ k = .ok root' := by
    rw [← hroot0]
    exact h2
  rw [docxEditRoot_eq root₀ d drest b brest k hd hb] at h2a
  have hroot' : root' = setKids root₀ "w:document"
      (setKids d "w:body" (docxEditBody b k :: brest) :: drest) :=
    (Except.ok.inj h2a).symm
  subst hroot'
  have hr1 : r1 = setKids root₀ "w:document"
      (setKids d "w:body" (docxEditBody b k :: brest) :: drest) := by
    rw [zxml_eq] at hout
    rcases hdoc with hn | hs
    · rw [hout] at hn
      cases hn
    · rw [hout] at hs
      exact Part.xml.inj (Option.some.inj hs)
  subst hr1
  refine ⟨docxEditBody b k, ?_, ?_⟩
  · unfold docxGetBody
    rw [getKids_setKids, if_pos rfl]
    dsimp only
    rw [getKids_setKids, if_pos rfl]
  · obtain ⟨hp, ht, hse, hsn⟩ := docxEditBody_spec b k hk
    exact ⟨hp, ht, hse, hsn⟩

/-- A two-paragraph, one-table document body used by the C7 witness. -/
def c7body : Xml :=
  .node [] [("w:p", [.node [("n", "1")] [], .node [("n", "2")] []]),
    ("w:tbl", [.node [] []]),
    ("w:sectPr", [.node [("s", "x")] []])]

def c7zip : Zip :=
  [("word/document.xml", .xml (.node []
    [("w:document", [.node [] [("w:body", [c7body])]])]))]

def c7outZip : Zip :=
  match docxEditZip c7zip 1 with
  | .ok z => z
  | .error _ => []

def c7r1 : Xml := (zxml c7outZip "word/document.xml").getD (.node [] [])

/-- C7 witness: the amended theorem applied to the concrete
two-paragraph document at k = 1. -/
theorem C7_witness :
    ∃ bodyOut, docxGetBody c7r1 = .ok bodyOut ∧
      getKids bodyOut "w:p" = (getKids c7body "w:p").take 1 ∧
      getKids bodyOut "w:tbl" = (getKids c7body "w:tbl").take
        (jsKeepTables 1 (getKids c7body "w:p").length
          (getKids c7body "w:tbl").length) ∧
      (∀ s srest, getKids c7body "w:sectPr" = s :: srest →
        getKids bodyOut "w:sectPr" = [s]) ∧
      (getKids c7body "w:sectPr" = [] → getKids bodyOut "w:sectPr" = []) :=
  C7_docx_body c7zip 1 c7outZip
    (.node [] [("w:document", [.node [] [("w:body", [c7body])]])])
    (.node [] [("w:body", [c7body])]) [] c7body [] c7r1
    rfl rfl rfl rfl (by decide) rfl

theorem zreadXml_of_none (z : Zip) (p : String) (h : zfile z p = none) :
    zreadXml z p = .ok none := by
  unfold zreadXml
  rw [h]

theorem zreadXml_of_xml (z : Zip) (p : String) (t : Xml)
    (h : zfile z p = some (.xml t)) : zreadXml z p = .ok (some t) := by
  unfold zreadXml
  rw [h]

theorem docxEditZip_full (zip : Zip) (k : Nat) (z' : Zip)
    (h : docxEditZip zip k = .ok z') :
    ∃ root root' z2 rem z4 z5 z6,
      docxGetRoot zip = .ok root ∧
      docxEditRoot root k = .ok root' ∧
      docxStep2Rels (zset zip "word/document.xml" (.xml root'))
        (collectRelationshipIds root') = .ok (z2, rem) ∧
      docxStep4Ct (docxStep3Remove z2 rem) rem = .ok z4 ∧
      cleanupFootnotes z4 root' = .ok z5 ∧
      cleanupEndnotes z5 root' = .ok z6 ∧
      cleanupComments z6 root' = .ok z' ∧
      (∀ q, q ≠ "word/document.xml" → q ≠ "word/_rels/document.xml.rels" →
        q ≠ "[Content_Types].xml" →
        zfile z4 q =
          if ∃ t ∈ rem, docxFullPath t = q then none else zfile zip q) ∧
      (∀ q, q ≠ "word/document.xml" → q ≠ "word/_rels/document.xml.rels" →
        q ≠ "[Content_Types].xml" → q ≠ "word/footnotes.xml" →
        q ≠ "word/endnotes.xml" → q ≠ "word/comments.xml" →
        zfile z' q =
          if ∃ t ∈ rem, docxFullPath t = q then none else zfile zip q) ∧
      (zfile z' "word/_rels/document.xml.rels" = none ∨
        zfile z' "word/_rels/document.xml.rels" =
          zfile z2 "word/_rels/document.xml.rels") := by
  obtain ⟨root, root', z2, rem, z4, z5, z6, h1, h2, h3, h4, h5, h6, h7⟩ :=
    docxEditZip_parts zip k z' h
  unfold cleanupComments at h7
  unfold cleanupEndnotes at h6
  unfold cleanupFootnotes at h5
  have hz4 : ∀ q, q ≠ "word/document.xml" → q ≠ "word/_rels/document.xml.rels" →
      q ≠ "[Content_Types].xml" →
      zfile z4 q =
        if ∃ t ∈ rem, docxFullPath t = q then none else zfile zip q := by
    intro q hq1 hq2 hq3
    rw [docxStep4Ct_pres _ _ _ h4 q hq3, docxStep3Remove_file,
      docxStep2Rels_pres _ _ _ _ h3 q hq2, zfile_zset, if_neg hq1]
  refine ⟨root, root', z2, rem, z4, z5, z6, h1, h2, h3, h4,
    by exact h5, by exact h6, by exact h7, hz4, ?_, ?_⟩
  · intro q hq1 hq2 hq3 hq4 hq5 hq6
    rw [cleanupNotesPart_pres _ _ _ _ _ _ _ h7 q hq6,
      cleanupNotesPart_pres _ _ _ _ _ _ _ h6 q hq5,
      cleanupNotesPart_pres _ _ _ _ _ _ _ h5 q hq4]
    exact hz4 q hq1 hq2 hq3
  · rw [cleanupNotesPart_pres _ _ _ _ _ _ _ h7 _ (by decide),
      cleanupNotesPart_pres _ _ _ _ _ _ _ h6 _ (by decide),
      cleanupNotesPart_pres _ _ _ _ _ _ _ h5 _ (by decide),
      docxStep4Ct_pres _ _ _ h4 _ (by decide), docxStep3Remove_file]
    split
    · exact Or.inl rfl
    · exact Or.inr rfl

theorem notesPart_result (zc zc' : Zip) (path rootKey entryKey : String)
    (used : List String) (kp : Bool) (c0 cr : Xml) (crest : List Xml)
    (hclean : cleanupNotesPart zc path rootKey entryKey used kp = .ok zc')
    (hval : zfile zc path = none ∨ zfile zc path = some (.xml c0))
    (hcr : getKids c0 rootKey = cr :: crest) :
    zfile zc' path = none ∨
    zfile zc' path = some (.xml (setKids c0 rootKey
      (setKids cr entryKey
        ((getKids cr entryKey).filter (notesKeep used kp)) :: crest))) := by
  rcases hval with hn | hs
  · rcases cleanupNotesPart_cases _ _ _ _ _ _ _ hclean with ⟨hr, hz⟩ | ⟨n, r, rest, hr, hk, hz⟩
    · rw [hz, hn]
      exact Or.inl rfl
    · rw [zreadXml_of_none _ _ hn] at hr
      cases hr
  · rcases cleanupNotesPart_cases _ _ _ _ _ _ _ hclean with ⟨hr, hz⟩ | ⟨n, r, rest, hr, hk, hz⟩
    · rw [zreadXml_of_xml _ _ _ hs] at hr
      cases hr
    · rw [zreadXml_of_xml _ _ _ hs] at hr
      have hn0 : n = c0 := by
        have := Except.ok.inj hr
        exact (Option.some.inj this).symm
      subst hn0
      rw [hcr] at hk
      obtain ⟨hr1, hr2⟩ : r = cr ∧ rest = crest :=
        ⟨(List.cons.inj hk).1.symm, (List.cons.inj hk).2.symm⟩
      subst hr1
      subst hr2
      rw [hz, zfile_zset, if_pos rfl]
      exact Or.inr rfl

/-- C8, counterexample: `cleanupComments` has no placeholder clause:
a comments part whose only entry is keyed `-1` loses that entry (the
result has an empty `w:comment` array), while the claim says entries
keyed `-1` and `0` are kept for each of the three satellite parts. -/
theorem C8_counterexample :
    (docxEditZip
      [("word/document.xml", Part.xml (.node []
        [("w:document", [.node [] [("w:body", [.node []
          [("w:p", [.node [] []])]])]])])),
       ("word/comments.xml", Part.xml (.node []
        [("w:comments", [.node []
          [("w:comment", [.node [("w:id", "-1")] []])]])]))] 1).map
      (fun z => zxml z "word/comments.xml")
      = .ok (some (.node [] [("w:comments", [.node [] [("w:comment", [])]])])) ∧
    ((.node [("w:id", "-1")] []) : Xml).attr "w:id" = some "-1" :=
  ⟨rfl, rfl⟩

/-- C8 (amended): after DOCX truncation, the footnotes and endnotes
parts keep exactly the entries whose `w:id` is referenced from the
surviving primary tree via `w:footnoteReference` / `w:endnoteReference`
elements plus the placeholders keyed `-1` and `0`; the comments part
keeps exactly the entries referenced via `w:commentReference` or
`w:commentRangeStart` — with no placeholder clause. -/
theorem C8_satellite_filter :
    (∀ (zip : Zip) (k : Nat) (z' : Zip) (c0 cr : Xml) (crest : List Xml)
      (c' rootOut : Xml),
      docxEditZip zip k = .ok z' →
      zxml zip "word/footnotes.xml" = some c0 →
      getKids c0 "w:footnotes" = cr :: crest →
      zxml z' "word/footnotes.xml" = some c' →
      zxml z' "word/document.xml" = some rootOut →
      ∃ used : List String,
        (∀ i, i ∈ used ↔ xmlHasRefEl "w:footnoteReference" "w:id" rootOut i) ∧
        getKids c' "w:footnotes" =
          setKids cr "w:footnote"
            ((getKids cr "w:footnote").filter (notesKeep used true)) :: crest) ∧
    (∀ (zip : Zip) (k : Nat) (z' : Zip) (c0 cr : Xml) (crest : List Xml)
      (c' rootOut : Xml),
      docxEditZip zip k = .ok z' →
      zxml zip "word/endnotes.xml" = some c0 →
      getKids c0 "w:endnotes" = cr :: crest →
      zxml z' "word/endnotes.xml" = some c' →
      zxml z' "word/document.xml" = some rootOut →
      ∃ used : List String,
        (∀ i, i ∈ used ↔ xmlHasRefEl "w:endnoteReference" "w:id" rootOut i) ∧
        getKids c' "w:endnotes" =
          setKids cr "w:endnote"
            ((getKids cr "w:endnote").filter (notesKeep used true)) :: crest) ∧
    (∀ (zip : Zip) (k : Nat) (z' : Zip) (c0 cr : Xml) (crest : List Xml)
      (c' rootOut : Xml),
      docxEditZip zip k = .ok z' →
      zxml zip "word/comments.xml" = some c0 →
      getKids c0 "w:comments" = cr :: crest →
      zxml z' "word/comments.xml" = some c' →
      zxml z' "word/document.xml" = some rootOut →
      ∃ used : List String,
        (∀ i, i ∈ used ↔ (xmlHasRefEl "w:commentReference" "w:id" rootOut i ∨
          xmlHasRefEl "w:commentRangeStart" "w:id" rootOut i)) ∧
        getKids c' "w:comments" =
          setKids cr "w:comment"
            ((getKids cr "w:comment").filter (notesKeep used false)) :: crest) := by
  refine ⟨?_, ?_, ?_⟩
  · intro zip k z' c0 cr crest c' rootOut h hc0 hcr hc' hro
    obtain ⟨root, root', z2, rem, z4, z5, z6, h1, h2, h3, h4, h5, h6, h7,
      hz4, hzall, hrels⟩ := docxEditZip_full zip k z' h
    obtain ⟨ra, rb, ha1, ha2, hadoc⟩ := docxEditZip_doc zip k z' h
    have hra : ra = root := Except.ok.inj (ha1.symm.trans h1)
    have hrb : rb = root' := by
      rw [hra] at ha2
      exact Except.ok.inj (ha2.symm.trans h2)
    have hroo : rootOut = root' := by
      rw [zxml_eq] at hro
      rcases hadoc with hn | hs
      · rw [hro] at hn
        cases hn
      · rw [hro] at hs
        rw [← hrb]
        exact Part.xml.inj (Option.some.inj hs)
    have hfp := hz4 "word/footnotes.xml" (by decide) (by decide) (by decide)
    have hin : zfile zip "word/footnotes.xml" = some (.xml c0) :=
      (zxml_eq _ _ _).mp hc0
    have hval4 : zfile z4 "word/footnotes.xml" = none ∨
        zfile z4 "word/footnotes.xml" = some (.xml c0) := by
      rw [hfp, hin]
      split
      · exact Or.inl rfl
      · exact Or.inr rfl
    unfold cleanupFootnotes at h5
    have hres := notesPart_result z4 z5 "word/footnotes.xml" "w:footnotes"
      "w:footnote" (collectElementIds "w:footnoteReference" "w:id" root') true
      c0 cr crest h5 hval4 hcr
    unfold cleanupEndnotes at h6
    unfold cleanupComments at h7
    have hz'fp : zfile z' "word/footnotes.xml" = zfile z5 "word/footnotes.xml" := by
      rw [cleanupNotesPart_pres _ _ _ _ _ _ _ h7 _ (by decide),
        cleanupNotesPart_pres _ _ _ _ _ _ _ h6 _ (by decide)]
    have hc'2 : zfile z' "word/footnotes.xml" = some (.xml c') :=
      (zxml_eq _ _ _).mp hc'
    rcases hres with hn | hs2
    · rw [hz'fp, hn] at hc'2
      cases hc'2
    · rw [hz'fp, hs2] at hc'2
      have hcw : c' = setKids c0 "w:footnotes"
          (setKids cr "w:footnote"
            ((getKids cr "w:footnote").filter
              (notesKeep (collectElementIds "w:footnoteReference" "w:id" root')
                true)) :: crest) :=
        (Part.xml.inj (Option.some.inj hc'2)).symm
      refine ⟨collectElementIds "w:footnoteReference" "w:id" root', ?_, ?_⟩
      · intro i
        rw [hroo]
        exact mem_collectElementIds _ _ root' i
      · rw [hcw, getKids_setKids, if_pos rfl]
  · intro zip k z' c0 cr crest c' rootOut h hc0 hcr hc' hro
    obtain ⟨root, root', z2, rem, z4, z5, z6, h1, h2, h3, h4, h5, h6, h7,
      hz4, hzall, hrels⟩ := docxEditZip_full zip k z' h
    obtain ⟨ra, rb, ha1, ha2, hadoc⟩ := docxEditZip_doc zip k z' h
    have hra : ra = root := Except.ok.inj (ha1.symm.trans h1)
    have hrb : rb = root' := by
      rw [hra] at ha2
      exact Except.ok.inj (ha2.symm.trans h2)
    have hroo : rootOut = root' := by
      rw [zxml_eq] at hro
      rcases hadoc with hn | hs
      · rw [hro] at hn
        cases hn
      · rw [hro] at hs
        rw [← hrb]
        exact Part.xml.inj (Option.some.inj hs)
    have hfp := hz4 "word/endnotes.xml" (by decide) (by decide) (by decide)
    have hin : zfile zip "word/endnotes.xml" = some (.xml c0) :=
      (zxml_eq _ _ _).mp hc0
    unfold cleanupFootnotes at h5
    have hval5 : zfile z5 "word/endnotes.xml" = none ∨
        zfile z5 "word/endnotes.xml" = some (.xml c0) := by
      rw [cleanupNotesPart_pres _ _ _ _ _ _ _ h5 _ (by decide), hfp, hin]
      split
      · exact Or.inl rfl
      · exact Or.inr rfl
    unfold cleanupEndnotes at h6
    have hres := notesPart_result z5 z6 "word/endnotes.xml" "w:endnotes"
      "w:endnote" (collectElementIds "w:endnoteReference" "w:id" root') true
      c0 cr crest h6 hval5 hcr
    unfold cleanupComments at h7
    have hz'fp : zfile z' "word/endnotes.xml" = zfile z6 "word/endnotes.xml" :=
      cleanupNotesPart_pres _ _ _ _ _ _ _ h7 _ (by decide)
    have hc'2 : zfile z' "word/endnotes.xml" = some (.xml c') :=
      (zxml_eq _ _ _).mp hc'
    rcases hres with hn | hs2
    · rw [hz'fp, hn] at hc'2
      cases hc'2
    · rw [hz'fp, hs2] at hc'2
      have hcw : c' = setKids c0 "w:endnotes"
          (setKids cr "w:endnote"
            ((getKids cr "w:endnote").filter
              (notesKeep (collectElementIds "w:endnoteReference" "w:id" root')
                true)) :: crest) :=
        (Part.xml.inj (Option.some.inj hc'2)).symm
      refine ⟨collectElementIds "w:endnoteReference" "w:id" root', ?_, ?_⟩
      · intro i
        rw [hroo]
        exact mem_collectElementIds _ _ root' i
      · rw [hcw, getKids_setKids, if_pos rfl]
  · intro zip k z' c0 cr crest c' rootOut h hc0 hcr hc' hro
    obtain ⟨root, root', z2, rem, z4, z5, z6, h1, h2, h3, h4, h5, h6, h7,
      hz4, hzall, hrels⟩ := docxEditZip_full zip k z' h
    obtain ⟨ra, rb, ha1, ha2, hadoc⟩ := docxEditZip_doc zip k z' h
    have hra : ra = root := Except.ok.inj (ha1.symm.trans h1)
    have hrb : rb = root' := by
      rw [hra] at ha2
      exact Except.ok.inj (ha2.symm.trans h2)
    have hroo : rootOut = root' := by
      rw [zxml_eq] at hro
      rcases hadoc with hn | hs
      · rw [hro] at hn
        cases hn
      · rw [hro] at hs
        rw [← hrb]
        exact Part.xml.inj (Option.some.inj hs)
    have hfp := hz4 "word/comments.xml" (by decide) (by decide) (by decide)
    have hin : zfile zip "word/comments.xml" = some (.xml c0) :=
      (zxml_eq _ _ _).mp hc0
    unfold cleanupFootnotes at h5
    unfold cleanupEndnotes at h6
    have hval6 : zfile z6 "word/comments.xml" = none ∨
        zfile z6 "word/comments.xml" = some (.xml c0) := by
      rw [cleanupNotesPart_pres _ _ _ _ _ _ _ h6 _ (by decide),
        cleanupNotesPart_pres _ _ _ _ _ _ _ h5 _ (by decide), hfp, hin]
      split
      · exact Or.inl rfl
      · exact Or.inr rfl
    unfold cleanupComments at h7
    have hres := notesPart_result z6 z' "word/comments.xml" "w:comments"
      "w:comment"
      (collectElementIds "w:commentReference" "w:id" root'
        ++ collectElementIds "w:commentRangeStart" "w:id" root') false
      c0 cr crest h7 hval6 hcr
    have hc'2 : zfile z' "word/comments.xml" = some (.xml c') :=
      (zxml_eq _ _ _).mp hc'
    rcases hres with hn | hs2
    · rw [hn] at hc'2
      cases hc'2
    · rw [hs2] at hc'2
      have hcw : c' = setKids c0 "w:comments"
          (setKids cr "w:comment"
            ((getKids cr "w:comment").filter
              (notesKeep (collectElementIds "w:commentReference" "w:id" root'
                ++ collectElementIds "w:commentRangeStart" "w:id" root')
                false)) :: crest) :=
        (Part.xml.inj (Option.some.inj hc'2)).symm
      refine ⟨collectElementIds "w:commentReference" "w:id" root'
        ++ collectElementIds "w:commentRangeStart" "w:id" root', ?_, ?_⟩
      · intro i
        rw [hroo, List.mem_append]
        exact or_congr (mem_collectElementIds _ _ root' i)
          (mem_collectElementIds _ _ root' i)
      · rw [hcw, getKids_setKids, if_pos rfl]

/-- Concrete DOCX zip for the C8 witness: one paragraph referencing
footnote id 2, and a footnotes part with entries -1, 2 and 3. -/
def c8zip : Zip :=
  [("word/document.xml", Part.xml (.node []
    [("w:document", [.node [] [("w:body", [.node []
      [("w:p", [.node [] [("w:footnoteReference",
        [.node [("w:id", "2")] []])]])]])]])])),
   ("word/footnotes.xml", Part.xml (.node []
    [("w:footnotes", [.node [] [("w:footnote",
      [.node [("w:id", "-1")] [], .node [("w:id", "2")] [],
       .node [("w:id", "3")] []])]])]))]

def c8cr : Xml :=
  .node [] [("w:footnote",
    [.node [("w:id", "-1")] [], .node [("w:id", "2")] [],
     .node [("w:id", "3")] []])]

def c8out : Zip :=
  match docxEditZip c8zip 1 with
  | .ok z => z
  | .error _ => []

def c8c : Xml := (zxml c8out "word/footnotes.xml").getD (.node [] [])

def c8ro : Xml := (zxml c8out "word/document.xml").getD (.node [] [])

/-- Witness for C8: the footnotes conjunct applied to `c8zip`, with every
hypothesis discharged by evaluation. -/
theorem C8_witness :
    ∃ used : List String,
      (∀ i, i ∈ used ↔ xmlHasRefEl "w:footnoteReference" "w:id" c8ro i) ∧
      getKids c8c "w:footnotes" =
        setKids c8cr "w:footnote"
          ((getKids c8cr "w:footnote").filter (notesKeep used true)) :: [] :=
  C8_satellite_filter.1 c8zip 1 c8out
    (.node [] [("w:footnotes", [c8cr])]) c8cr [] c8c c8ro
    rfl rfl rfl rfl rfl

/-! ### Relationship-integrity infrastructure (PPTX and DOCX) -/

/-- The `p:sldId` entries of a presentation tree:
`parsed["p:presentation"]?.["p:sldIdLst"]?.[0]?.["p:sldId"]` read on an
arbitrary tree. -/
def presSldIds (p : Xml) : List Xml :=
  match getKids p "p:presentation" with
  | [] => []
  | pp :: _ =>
    match getKids pp "p:sldIdLst" with
    | [] => []
    | l :: _ => getKids l "p:sldId"

theorem zfile_mem_zkeys (z : Zip) (q : String) (p : Part)
    (h : zfile z q = some p) : q ∈ zkeys z := by
  induction z with
  | nil => cases h
  | cons e t ih =>
    unfold zfile alook at h
    by_cases he : e.1 = q
    · rw [if_pos he] at h
      exact he ▸ List.mem_cons_self e.1 (zkeys t)
    · rw [if_neg he] at h
      exact List.mem_cons_of_mem e.1 (ih h)

theorem strToList_append (a b : String) : (a ++ b).toList = a.toList ++ b.toList := by
  simp [String.toList, String.data_append]

theorem ne_of_pre_conflict (a b : List Char) (s t : String)
    (ha : a <+: s.toList) (hb : b <+: t.toList) (hlen : a.length = b.length)
    (hne : a ≠ b) : s ≠ t := by
  intro h
  subst h
  have hab : a <+: b := List.prefix_of_prefix_length_le ha hb (le_of_eq hlen)
  exact hne (List.IsPrefix.eq_of_length hab hlen)

theorem slideFile_starts (f : String) (h : (slideFileNum? f).isSome) :
    "ppt/slides/slide".toList <+: f.toList := by
  unfold slideFileNum? at h
  by_cases hc : ("ppt/slides/slide".toList).isPrefixOf f.toList ∧
      (".xml".toList).isSuffixOf f.toList
  · exact List.isPrefixOf_iff_prefix.mp hc.1
  · rw [if_neg hc] at h
    cases h

theorem slideRelsName_starts (f : String) :
    "ppt/slides/_rels/".toList <+: (slideRelsName f).toList := by
  unfold slideRelsName
  rw [strToList_append, strToList_append, List.append_assoc]
  exact List.prefix_append _ _

theorem zreadXml_some_inv (z : Zip) (p : String) (t : Xml)
    (h : zreadXml z p = .ok (some t)) : zfile z p = some (.xml t) := by
  unfold zreadXml at h
  cases hf : zfile z p with
  | none => rw [hf] at h; cases Except.ok.inj h
  | some part =>
    rw [hf] at h
    cases part with
    | bin l =>
      cases l with
      | nil => cases Except.ok.inj h
      | cons a l => cases h
    | xml t' =>
      rw [Option.some.inj (Except.ok.inj h)]

theorem zreadXml_none_inv (z : Zip) (p : String)
    (h : zreadXml z p = .ok none) :
    zfile z p = none ∨ zfile z p = some (.bin []) := by
  unfold zreadXml at h
  cases hf : zfile z p with
  | none => exact Or.inl rfl
  | some part =>
    rw [hf] at h
    cases part with
    | bin l =>
      cases l with
      | nil => exact Or.inr rfl
      | cons a l => cases h
    | xml t' => cases Except.ok.inj h

theorem slideRemoveFold (l : List String) (z : Zip) (q : String)
    (hq : ∀ f ∈ l, f ≠ q ∧ slideRelsName f ≠ q) :
    zfile (l.foldl (fun z f =>
      let z := zremove z f
      let relsFile := slideRelsName f
      if (zfile z relsFile).isSome then zremove z relsFile else z) z) q = zfile z q := by
  induction l generalizing z with
  | nil => rfl
  | cons a t ih =>
    rw [List.foldl_cons, ih _ (fun f hf => hq f (List.mem_cons_of_mem a hf))]
    dsimp only
    obtain ⟨h1, h2⟩ := hq a (List.mem_cons_self a t)
    split
    · rw [zfile_zremove, if_neg (fun h => h2 h.symm), zfile_zremove,
        if_neg (fun h => h1 h.symm)]
    · rw [zfile_zremove, if_neg (fun h => h1 h.symm)]

theorem pptxStep1Remove_pres (zip : Zip) (sf : List String) (m : Nat) (q : String)
    (hq : ∀ f ∈ sf, f ≠ q ∧ slideRelsName f ≠ q) :
    zfile (pptxStep1Remove zip sf m) q = zfile zip q := by
  unfold pptxStep1Remove
  exact slideRemoveFold _ _ _ (fun f hf => hq f (List.drop_subset m sf hf))

theorem step1_presRels (zip : Zip) (m : Nat) :
    zfile (pptxStep1Remove zip (pptxSlideFiles zip) m) "ppt/_rels/presentation.xml.rels"
      = zfile zip "ppt/_rels/presentation.xml.rels" := by
  apply pptxStep1Remove_pres
  intro f hf
  have h1 := slideFile_starts f (mem_pptxSlideFiles zip f hf)
  have h2 : "ppt/s".toList <+: f.toList := List.IsPrefix.trans (by decide) h1
  have h3 : "ppt/s".toList <+: (slideRelsName f).toList :=
    List.IsPrefix.trans (by decide) (slideRelsName_starts f)
  have hq : "ppt/_".toList <+: "ppt/_rels/presentation.xml.rels".toList := by decide
  exact ⟨ne_of_pre_conflict _ _ _ _ h2 hq (by decide) (by decide),
    ne_of_pre_conflict _ _ _ _ h3 hq (by decide) (by decide)⟩

theorem step1_presXml (zip : Zip) (m : Nat) :
    zfile (pptxStep1Remove zip (pptxSlideFiles zip) m) "ppt/presentation.xml"
      = zfile zip "ppt/presentation.xml" := by
  apply pptxStep1Remove_pres
  intro f hf
  have h1 := slideFile_starts f (mem_pptxSlideFiles zip f hf)
  have h2 : "ppt/s".toList <+: f.toList := List.IsPrefix.trans (by decide) h1
  have h3 : "ppt/s".toList <+: (slideRelsName f).toList :=
    List.IsPrefix.trans (by decide) (slideRelsName_starts f)
  have hq : "ppt/p".toList <+: "ppt/presentation.xml".toList := by decide
  exact ⟨ne_of_pre_conflict _ _ _ _ h2 hq (by decide) (by decide),
    ne_of_pre_conflict _ _ _ _ h3 hq (by decide) (by decide)⟩

theorem pptxStep2Rels_cases (z1 : Zip) (keep : List String) (z2 : Zip)
    (removed : List (Option String))
    (h : pptxStep2Rels z1 keep = .ok (z2, removed)) :
    (zreadXml z1 "ppt/_rels/presentation.xml.rels" = .ok none ∧
      z2 = z1 ∧ removed = []) ∨
    (∃ rroot r rest,
      zreadXml z1 "ppt/_rels/presentation.xml.rels" = .ok (some rroot) ∧
      getKids rroot "Relationships" = r :: rest ∧
      z2 = zset z1 "ppt/_rels/presentation.xml.rels"
        (.xml (setKids rroot "Relationships"
          (setKids r "Relationship"
            ((relsListOf rroot).filter (pptxKeepRel keep)) :: rest))) ∧
      removed = (relsListOf rroot).filterMap (fun rel =>
        if pptxKeepRel keep rel then none else some (rel.attr "Id"))) := by
  unfold pptxStep2Rels at h
  cases hr : zreadXml z1 "ppt/_rels/presentation.xml.rels" with
  | error e => rw [hr, error_bind] at h; cases h
  | ok o =>
    rw [hr, ok_bind] at h
    cases o with
    | none =>
      cases h
      exact Or.inl ⟨rfl, rfl, rfl⟩
    | some rroot =>
      dsimp only at h
      cases hk : getKids rroot "Relationships" with
      | nil => rw [hk] at h; cases h
      | cons r rest =>
        rw [hk] at h
        cases h
        exact Or.inr ⟨rroot, r, rest, rfl, hk, rfl, rfl⟩

theorem pptxStep2Rels_pres (z1 : Zip) (keep : List String) (z2 : Zip)
    (removed : List (Option String))
    (h : pptxStep2Rels z1 keep = .ok (z2, removed))
    (q : String) (hq : q ≠ "ppt/_rels/presentation.xml.rels") :
    zfile z2 q = zfile z1 q := by
  rcases pptxStep2Rels_cases _ _ _ _ h with ⟨_, h2, _⟩ | ⟨rroot, r, rest, _, _, h2, _⟩
  · rw [h2]
  · rw [h2, zfile_zset, if_neg hq]

theorem pptxStep3Pres_cases (z2 : Zip) (removed : List (Option String)) (z3 : Zip)
    (h : pptxStep3Pres z2 removed = .ok z3) :
    (zreadXml z2 "ppt/presentation.xml" = .ok none ∧ z3 = z2) ∨
    (∃ proot proot',
      zreadXml z2 "ppt/presentation.xml" = .ok (some proot) ∧
      z3 = zset z2 "ppt/presentation.xml" (.xml proot') ∧
      presSldIds proot' = (presSldIds proot).filter
        (fun sld => !(removed.contains (sld.attr "r:id")))) := by
  unfold pptxStep3Pres at h
  cases hr : zreadXml z2 "ppt/presentation.xml" with
  | error e => rw [hr, error_bind] at h; cases h
  | ok o =>
    rw [hr, ok_bind] at h
    cases o with
    | none =>
      cases h
      exact Or.inl ⟨rfl, rfl⟩
    | some proot =>
      dsimp only at h
      cases hk : getKids proot "p:presentation" with
      | nil =>
        rw [hk] at h
        cases h
        refine Or.inr ⟨proot, proot, rfl, rfl, ?_⟩
        unfold presSldIds
        rw [hk]
        simp
      | cons p prest =>
        rw [hk] at h
        dsimp only at h
        cases hl : getKids p "p:sldIdLst" with
        | nil =>
          rw [hl] at h
          cases h
          refine Or.inr ⟨proot, proot, rfl, rfl, ?_⟩
          unfold presSldIds
          rw [hk]
          dsimp only
          rw [hl]
          simp
        | cons l lrest =>
          rw [hl] at h
          cases h
          refine Or.inr ⟨proot, _, rfl, rfl, ?_⟩
          unfold presSldIds
          rw [getKids_setKids, if_pos rfl, hk]
          dsimp only
          rw [getKids_setKids, if_pos rfl, hl]
          dsimp only
          rw [getKids_setKids, if_pos rfl]

theorem pptxStep3Pres_pres (z2 : Zip) (removed : List (Option String)) (z3 : Zip)
    (h : pptxStep3Pres z2 removed = .ok z3)
    (q : String) (hq : q ≠ "ppt/presentation.xml") :
    zfile z3 q = zfile z2 q := by
  rcases pptxStep3Pres_cases _ _ _ h with ⟨_, h2⟩ | ⟨proot, proot', _, h2, _⟩
  · rw [h2]
  · rw [h2, zfile_zset, if_neg hq]

theorem pptxStep4Ct_pres (z3 : Zip) (keep : List String) (z4 : Zip)
    (h : pptxStep4Ct z3 keep = .ok z4)
    (q : String) (hq : q ≠ "[Content_Types].xml") :
    zfile z4 q = zfile z3 q := by
  unfold pptxStep4Ct at h
  cases hr : zreadXml z3 "[Content_Types].xml" with
  | error e => rw [hr, error_bind] at h; cases h
  | ok o =>
    rw [hr, ok_bind] at h
    cases o with
    | none =>
      cases h
      rfl
    | some ct =>
      dsimp only at h
      cases hk : getKids ct "Types" with
      | nil => rw [hk] at h; cases h
      | cons t rest =>
        rw [hk] at h
        cases h
        rw [zfile_zset, if_neg hq]

theorem pptxMediaCt_pres (z1 : Zip) (used : List String) (z2 : Zip)
    (h : pptxMediaCt z1 used = .ok z2)
    (q : String) (hq : q ≠ "[Content_Types].xml") :
    zfile z2 q = zfile z1 q := by
  unfold pptxMediaCt at h
  cases hr : zreadXml z1 "[Content_Types].xml" with
  | error e => rw [hr, error_bind] at h; cases h
  | ok o =>
    rw [hr, ok_bind] at h
    cases o with
    | none =>
      cases h
      rfl
    | some ct =>
      dsimp only at h
      cases hk : getKids ct "Types" with
      | nil => rw [hk] at h; cases h
      | cons t rest =>
        rw [hk] at h
        cases h
        rw [zfile_zset, if_neg hq]

theorem pptxMediaRemove_file (z : Zip) (u : List String) (q : String) :
    zfile (pptxMediaRemove z u) q =
      if q ∈ (zkeys z).filter (fun f => strStarts f "ppt/media/") ∧
          u.contains q = false
      then none else zfile z q := by
  unfold pptxMediaRemove
  exact zfile_foldl_zremove_if (fun f => u.contains f) _ z q

theorem pptxMediaRemove_pres (z : Zip) (u : List String) (q : String)
    (hq : strStarts q "ppt/media/" = false) :
    zfile (pptxMediaRemove z u) q = zfile z q := by
  rw [pptxMediaRemove_file]
  rw [if_neg]
  rintro ⟨hm, _⟩
  rw [(List.mem_filter.mp hm).2] at hq
  cases hq

theorem usedMediaFold (z : Zip) (l : List String) (acc used : List String)
    (h : l.foldlM (fun (acc : List String) relsFile => do
        match ← zreadXml z relsFile with
        | none => pure acc
        | some root =>
          pure (acc ++ (relsListOf root).filterMap (fun (rel : Xml) =>
            match rel.attr "Target" with
            | some t => if t ≠ "" then some (pptxNormalizeMedia t) else none
            | none => none))) acc = .ok used)
    (q : String) (hq : q ∈ used) :
    q ∈ acc ∨ ∃ relsFile ∈ l, ∃ rroot, zreadXml z relsFile = .ok (some rroot) ∧
      ∃ rel ∈ relsListOf rroot, ∃ t, rel.attr "Target" = some t ∧ t ≠ "" ∧
        pptxNormalizeMedia t = q := by
  induction l generalizing acc with
  | nil =>
    rw [List.foldlM_nil] at h
    cases h
    exact Or.inl hq
  | cons f tl ih =>
    rw [List.foldlM_cons] at h
    cases hr : zreadXml z f with
    | error e =>
      rw [hr, error_bind, error_bind] at h
      cases h
    | ok o =>
      rw [hr, ok_bind] at h
      cases o with
      | none =>
        dsimp only at h
        rw [pure_eq_ok, ok_bind] at h
        rcases ih acc h with hacc | ⟨rf, hrf, rest⟩
        · exact Or.inl hacc
        · exact Or.inr ⟨rf, List.mem_cons_of_mem f hrf, rest⟩
      | some root =>
        dsimp only at h
        rw [pure_eq_ok, ok_bind] at h
        rcases ih _ h with hacc | ⟨rf, hrf, rest⟩
        · rcases List.mem_append.mp hacc with h1 | h2
          · exact Or.inl h1
          · obtain ⟨rel, hrel, hfm⟩ := List.mem_filterMap.mp h2
            cases ht : rel.attr "Target" with
            | none => rw [ht] at hfm; cases hfm
            | some t =>
              rw [ht] at hfm
              dsimp only at hfm
              by_cases hte : t ≠ ""
              · rw [if_pos hte] at hfm
                exact Or.inr ⟨f, List.mem_cons_self f tl, root, hr, rel, hrel, t,
                  ht, hte, Option.some.inj hfm⟩
              · rw [if_neg hte] at hfm
                cases hfm
        · exact Or.inr ⟨rf, List.mem_cons_of_mem f hrf, rest⟩

theorem pptxUsedMedia_mem (z : Zip) (used : List String)
    (h : pptxUsedMedia z = .ok used) (q : String) (hq : q ∈ used) :
    ∃ relsFile, isSlideRelsPath relsFile = true ∧
      ∃ rroot, zreadXml z relsFile = .ok (some rroot) ∧
      ∃ rel ∈ relsListOf rroot, ∃ t, rel.attr "Target" = some t ∧ t ≠ "" ∧
        pptxNormalizeMedia t = q := by
  unfold pptxUsedMedia at h
  rcases usedMediaFold z ((zkeys z).filter isSlideRelsPath) [] used h q hq with
    h0 | ⟨rf, hrf, rest⟩
  · cases h0
  · exact ⟨rf, (List.mem_filter.mp hrf).2, rest⟩

theorem pptxEditZip_parts (zip : Zip) (k : Nat) (z' : Zip)
    (h : pptxEditZip zip k = .ok z') :
    ∃ z2 removed z3 z4 used,
      pptxStep2Rels (pptxStep1Remove zip (pptxSlideFiles zip) k)
        (((pptxSlideFiles zip).take k).filterMap slideFileNum?) = .ok (z2, removed) ∧
      pptxStep3Pres z2 removed = .ok z3 ∧
      pptxStep4Ct z3 (((pptxSlideFiles zip).take k).filterMap slideFileNum?) = .ok z4 ∧
      pptxUsedMedia z4 = .ok used ∧
      pptxMediaCt (pptxMediaRemove z4 used) used = .ok z' := by
  unfold pptxEditZip at h
  dsimp only at h
  cases h2 : pptxStep2Rels (pptxStep1Remove zip (pptxSlideFiles zip) k)
      (((pptxSlideFiles zip).take k).filterMap slideFileNum?) with
  | error e => rw [h2, error_bind] at h; cases h
  | ok pr =>
    obtain ⟨z2, removed⟩ := pr
    rw [h2, ok_bind] at h
    dsimp only at h
    cases h3 : pptxStep3Pres z2 removed with
    | error e => rw [h3, error_bind] at h; cases h
    | ok z3 =>
      rw [h3, ok_bind] at h
      cases h4 : pptxStep4Ct z3
          (((pptxSlideFiles zip).take k).filterMap slideFileNum?) with
      | error e => rw [h4, error_bind] at h; cases h
      | ok z4 =>
        rw [h4, ok_bind] at h
        unfold cleanupOrphanedPptxMedia at h
        cases h5 : pptxUsedMedia z4 with
        | error e => rw [h5, error_bind] at h; cases h
        | ok used =>
          rw [h5, ok_bind] at h
          exact ⟨z2, removed, z3, z4, used, rfl, h3, h4, h5, h⟩

/-- A PPTX archive whose presentation part references slide 2 both from
`p:sldIdLst` and from a custom-show list (`p:custShowLst`). -/
def c3zip : Zip :=
  [("ppt/presentation.xml", Part.xml (.node []
     [("p:presentation",
       [.node []
         [("p:sldIdLst", [.node []
            [("p:sldId", [.node [("r:id", "rId1")] [],
                          .node [("r:id", "rId2")] []])]]),
          ("p:custShowLst", [.node []
            [("p:custShow", [.node [("r:id", "rId2")] []])]])]])])),
   ("ppt/_rels/presentation.xml.rels", Part.xml (.node []
     [("Relationships",
       [.node []
         [("Relationship",
           [.node [("Id", "rId1"), ("Target", "slides/slide1.xml")] [],
            .node [("Id", "rId2"), ("Target", "slides/slide2.xml")] []])]])])),
   ("ppt/slides/slide1.xml", Part.xml (.node [] [])),
   ("ppt/slides/slide2.xml", Part.xml (.node [] []))]

def c3out : Zip :=
  match pptxEditZip c3zip 1 with
  | .ok z => z
  | .error _ => []

def c3pres : Xml := (zxml c3out "ppt/presentation.xml").getD (.node [] [])

def c3rels : Xml :=
  (zxml c3out "ppt/_rels/presentation.xml.rels").getD (.node [] [])

/-- C3, counterexample: PPTX truncation rewrites only the `p:sldIdLst`
entries of the presentation part, so a relationship ID referenced from
another element of the surviving primary part — here `p:custShow`'s
`r:id="rId2"` — no longer resolves: the pruned relationship part keeps
no entry with that ID. -/
theorem C3_counterexample :
    pptxEditZip c3zip 1 = .ok c3out ∧
    zxml c3out "ppt/presentation.xml" = some c3pres ∧
    "rId2" ∈ collectRelationshipIds c3pres ∧
    zxml c3out "ppt/_rels/presentation.xml.rels" = some c3rels ∧
    (relsListOf c3rels).all (fun rel => !(rel.attr "Id" == some "rId2")) = true :=
  ⟨rfl, rfl, by decide, rfl, by decide⟩

/-- C3 (amended): (1) DOCX: every relationship ID referenced in the
truncated primary part that resolved in the input relationship part still
resolves in the surviving relationship part; (2) DOCX: an entry (outside
the six directly edited parts) is deleted only when it is the resolved
path of a relationship target dropped as unreferenced-and-not-required —
media never referenced by any relationship is NOT removed; (3) PPTX: only
the `p:sldIdLst` references of the surviving presentation part are kept
consistent: every surviving `p:sldId` entry's `r:id` still resolves
(other references such as `p:custShowLst` may dangle, see the
counterexample); (4) PPTX: every `ppt/media/` entry still present is
referenced by at least one surviving slide relationship part. -/
theorem C3_rel_integrity :
    (∀ (zip : Zip) (k : Nat) (z' : Zip) (rootOut rr₀ rr' : Xml)
      (i : String) (rel : Xml),
      docxEditZip zip k = .ok z' →
      zxml z' "word/document.xml" = some rootOut →
      zxml zip "word/_rels/document.xml.rels" = some rr₀ →
      zxml z' "word/_rels/document.xml.rels" = some rr' →
      xmlRefersTo rootOut i →
      rel ∈ relsListOf rr₀ →
      rel.attr "Id" = some i →
      rel ∈ relsListOf rr') ∧
    (∀ (zip : Zip) (k : Nat) (z' : Zip) (rootOut : Xml) (q : String),
      docxEditZip zip k = .ok z' →
      zxml z' "word/document.xml" = some rootOut →
      q ≠ "word/document.xml" → q ≠ "word/_rels/document.xml.rels" →
      q ≠ "[Content_Types].xml" → q ≠ "word/footnotes.xml" →
      q ≠ "word/endnotes.xml" → q ≠ "word/comments.xml" →
      zfile zip q ≠ none → zfile z' q = none →
      ∃ rr₀, zxml zip "word/_rels/document.xml.rels" = some rr₀ ∧
        ∃ t ∈ docxRemovedTargets (collectRelationshipIds rootOut)
          (relsListOf rr₀), docxFullPath t = q) ∧
    (∀ (zip : Zip) (k : Nat) (z' : Zip) (pres' rr₀ rr' sld rel : Xml),
      pptxEditZip zip k = .ok z' →
      zxml zip "ppt/_rels/presentation.xml.rels" = some rr₀ →
      zxml z' "ppt/_rels/presentation.xml.rels" = some rr' →
      zxml z' "ppt/presentation.xml" = some pres' →
      sld ∈ presSldIds pres' →
      rel ∈ relsListOf rr₀ →
      rel.attr "Id" = sld.attr "r:id" →
      rel ∈ relsListOf rr') ∧
    (∀ (zip : Zip) (k : Nat) (z' : Zip) (q : String),
      pptxEditZip zip k = .ok z' →
      strStarts q "ppt/media/" = true →
      zfile z' q ≠ none →
      ∃ relsFile rroot, isSlideRelsPath relsFile = true ∧
        zxml z' relsFile = some rroot ∧
        ∃ rel ∈ relsListOf rroot, ∃ t, rel.attr "Target" = some t ∧ t ≠ "" ∧
          pptxNormalizeMedia t = q) := by
  refine ⟨?_, ?_, ?_, ?_⟩
  · intro zip k z' rootOut rr₀ rr' i rel h hdoc hin hout href hrel hid
    obtain ⟨root, root', z2, rem, z4, z5, z6, h1, h2x, h3, h4, h5, h6, h7,
      hz4, hzall, hrels⟩ := docxEditZip_full zip k z' h
    obtain ⟨ra, rb, ha1, ha2, hadoc⟩ := docxEditZip_doc zip k z' h
    have hra : ra = root := Except.ok.inj (ha1.symm.trans h1)
    have hrb : rb = root' := by
      rw [hra] at ha2
      exact Except.ok.inj (ha2.symm.trans h2x)
    have hroo : rootOut = root' := by
      rw [zxml_eq] at hdoc
      rcases hadoc with hn | hs
      · rw [hdoc] at hn
        cases hn
      · rw [hdoc] at hs
        rw [← hrb]
        exact Part.xml.inj (Option.some.inj hs)
    have hinf : zfile zip "word/_rels/document.xml.rels" = some (.xml rr₀) :=
      (zxml_eq _ _ _).mp hin
    have hz1 : zfile (zset zip "word/document.xml" (.xml root'))
        "word/_rels/document.xml.rels" = some (.xml rr₀) := by
      rw [zfile_zset, if_neg (by decide)]
      exact hinf
    rcases docxStep2Rels_cases _ _ _ _ h3 with ⟨hrn, _, _⟩ |
      ⟨rroot, r, rest, hrs, hrk, hz2e, hreme⟩
    · rw [zreadXml_of_xml _ _ _ hz1] at hrn
      cases Except.ok.inj hrn
    · rw [zreadXml_of_xml _ _ _ hz1] at hrs
      have hrr : rroot = rr₀ := (Option.some.inj (Except.ok.inj hrs)).symm
      subst hrr
      have hofz : zfile z' "word/_rels/document.xml.rels" = some (.xml rr') :=
        (zxml_eq _ _ _).mp hout
      rcases hrels with hn | he
      · rw [hofz] at hn
        cases hn
      · rw [hofz, hz2e, zfile_zset, if_pos rfl] at he
        have hrr' : rr' = setKids rroot "Relationships"
            (setKids r "Relationship"
              ((relsListOf rroot).filter
                (docxKeepRel (collectRelationshipIds root'))) :: rest) :=
          Part.xml.inj (Option.some.inj he)
        have hlist : relsListOf rr' = (relsListOf rroot).filter
            (docxKeepRel (collectRelationshipIds root')) := by
          rw [hrr']
          unfold relsListOf
          rw [getKids_setKids, if_pos rfl]
          dsimp only
          rw [getKids_setKids, if_pos rfl]
        rw [hlist]
        apply List.mem_filter.mpr
        refine ⟨hrel, ?_⟩
        have hiu : i ∈ collectRelationshipIds root' :=
          (mem_collectRelationshipIds root' i).mpr (by
            rw [hroo] at href
            exact href)
        unfold docxKeepRel
        rw [hid]
        dsimp only
        rw [Bool.or_eq_true]
        right
        simpa using hiu
  · intro zip k z' rootOut q h hdoc hq1 hq2 hq3 hq4 hq5 hq6 hinne houtn
    obtain ⟨root, root', z2, rem, z4, z5, z6, h1, h2x, h3, h4, h5, h6, h7,
      hz4, hzall, hrels⟩ := docxEditZip_full zip k z' h
    obtain ⟨ra, rb, ha1, ha2, hadoc⟩ := docxEditZip_doc zip k z' h
    have hra : ra = root := Except.ok.inj (ha1.symm.trans h1)
    have hrb : rb = root' := by
      rw [hra] at ha2
      exact Except.ok.inj (ha2.symm.trans h2x)
    have hroo : rootOut = root' := by
      rw [zxml_eq] at hdoc
      rcases hadoc with hn | hs
      · rw [hdoc] at hn
        cases hn
      · rw [hdoc] at hs
        rw [← hrb]
        exact Part.xml.inj (Option.some.inj hs)
    have he := hzall q hq1 hq2 hq3 hq4 hq5 hq6
    by_cases hc : ∃ t ∈ rem, docxFullPath t = q
    · obtain ⟨t, htm, htp⟩ := hc
      rcases docxStep2Rels_cases _ _ _ _ h3 with ⟨hrn, _, hreme⟩ |
        ⟨rroot, r, rest, hrs, hrk, hz2e, hreme⟩
      · rw [hreme] at htm
        cases htm
      · have hio : zfile zip "word/_rels/document.xml.rels" =
            some (.xml rroot) := by
          have hx := zreadXml_some_inv _ _ _ hrs
          rw [zfile_zset, if_neg (by decide)] at hx
          exact hx
        refine ⟨rroot, (zxml_eq _ _ _).mpr hio, t, ?_, htp⟩
        rw [hroo]
        rw [hreme] at htm
        exact htm
    · rw [if_neg hc] at he
      rw [he] at houtn
      exact absurd houtn hinne
  · intro zip k z' pres' rr₀ rr' sld rel h hin hout hpres hsld hrel hid
    obtain ⟨z2, removed, z3, z4, used, h2, h3, h4, h5, h6⟩ :=
      pptxEditZip_parts zip k z' h
    have hinf : zfile zip "ppt/_rels/presentation.xml.rels" =
        some (.xml rr₀) := (zxml_eq _ _ _).mp hin
    have hz1 : zfile (pptxStep1Remove zip (pptxSlideFiles zip) k)
        "ppt/_rels/presentation.xml.rels" = some (.xml rr₀) := by
      rw [step1_presRels]
      exact hinf
    rcases pptxStep2Rels_cases _ _ _ _ h2 with ⟨hrn, _, _⟩ |
      ⟨rroot, r, rest, hrs, hrk, hz2e, hreme⟩
    · rw [zreadXml_of_xml _ _ _ hz1] at hrn
      cases Except.ok.inj hrn
    · rw [zreadXml_of_xml _ _ _ hz1] at hrs
      have hrr : rroot = rr₀ := (Option.some.inj (Except.ok.inj hrs)).symm
      subst hrr
      have hofz : zfile z' "ppt/_rels/presentation.xml.rels" =
          some (.xml rr') := (zxml_eq _ _ _).mp hout
      have hchain : zfile z' "ppt/_rels/presentation.xml.rels" =
          zfile z2 "ppt/_rels/presentation.xml.rels" := by
        rw [pptxMediaCt_pres _ _ _ h6 _ (by decide),
          pptxMediaRemove_pres _ _ _ (by decide),
          pptxStep4Ct_pres _ _ _ h4 _ (by decide),
          pptxStep3Pres_pres _ _ _ h3 _ (by decide)]
      rw [hchain, hz2e, zfile_zset, if_pos rfl] at hofz
      have hrr' : rr' = setKids rroot "Relationships"
          (setKids r "Relationship"
            ((relsListOf rroot).filter
              (pptxKeepRel (((pptxSlideFiles zip).take k).filterMap
                slideFileNum?))) :: rest) :=
        (Part.xml.inj (Option.some.inj hofz)).symm
      have hpf : zfile z' "ppt/presentation.xml" = some (.xml pres') :=
        (zxml_eq _ _ _).mp hpres
      have hchainp : zfile z' "ppt/presentation.xml" =
          zfile z3 "ppt/presentation.xml" := by
        rw [pptxMediaCt_pres _ _ _ h6 _ (by decide),
          pptxMediaRemove_pres _ _ _ (by decide),
          pptxStep4Ct_pres _ _ _ h4 _ (by decide)]
      rcases pptxStep3Pres_cases _ _ _ h3 with ⟨hprn, hz3e⟩ |
        ⟨proot, proot', hprs, hz3e, hslds⟩
      · rw [hchainp, hz3e] at hpf
        rcases zreadXml_none_inv _ _ hprn with hnn | hnb
        · rw [hnn] at hpf
          cases hpf
        · rw [hnb] at hpf
          cases Option.some.inj hpf
      · rw [hchainp, hz3e, zfile_zset, if_pos rfl] at hpf
        have hpp : pres' = proot' := (Part.xml.inj (Option.some.inj hpf)).symm
        rw [hpp, hslds] at hsld
        have hsurv := (List.mem_filter.mp hsld).2
        have hnotmem : sld.attr "r:id" ∉ removed := by
          intro hm
          rw [Bool.not_eq_true'] at hsurv
          rw [(by simpa using hm :
            removed.contains (sld.attr "r:id") = true)] at hsurv
          cases hsurv
        by_cases hb : pptxKeepRel
            (((pptxSlideFiles zip).take k).filterMap slideFileNum?) rel = true
        · have hlist : relsListOf rr' = (relsListOf rroot).filter
              (pptxKeepRel (((pptxSlideFiles zip).take k).filterMap
                slideFileNum?)) := by
            rw [hrr']
            unfold relsListOf
            rw [getKids_setKids, if_pos rfl]
            dsimp only
            rw [getKids_setKids, if_pos rfl]
          rw [hlist]
          exact List.mem_filter.mpr ⟨hrel, hb⟩
        · have hbf : pptxKeepRel
              (((pptxSlideFiles zip).take k).filterMap slideFileNum?) rel
              = false := by
            cases hcb : pptxKeepRel
              (((pptxSlideFiles zip).take k).filterMap slideFileNum?) rel
            · rfl
            · exact absurd hcb hb
          have hmem : (rel.attr "Id") ∈ removed := by
            rw [hreme]
            exact List.mem_filterMap.mpr ⟨rel, hrel, by simp [hbf]⟩
          rw [hid] at hmem
          exact absurd hmem hnotmem
  · intro zip k z' q h hqm hne
    obtain ⟨z2, removed, z3, z4, used, h2, h3, h4, h5, h6⟩ :=
      pptxEditZip_parts zip k z' h
    have hpm : "ppt/media/".toList <+: q.toList :=
      List.isPrefixOf_iff_prefix.mp hqm
    have hq1 : ['p'] <+: q.toList := List.IsPrefix.trans (by decide) hpm
    have hqCT : q ≠ "[Content_Types].xml" :=
      ne_of_pre_conflict ['p'] ['['] _ _ hq1 (by decide) (by decide) (by decide)
    rw [pptxMediaCt_pres _ _ _ h6 q hqCT, pptxMediaRemove_file] at hne
    by_cases hcond : q ∈ (zkeys z4).filter (fun f => strStarts f "ppt/media/") ∧
        used.contains q = false
    · rw [if_pos hcond] at hne
      exact absurd rfl hne
    · rw [if_neg hcond] at hne
      obtain ⟨part, hpart⟩ : ∃ p, zfile z4 q = some p := by
        cases hzq : zfile z4 q
        · rw [hzq] at hne
          exact absurd rfl hne
        · exact ⟨_, rfl⟩
      have hkey : q ∈ (zkeys z4).filter (fun f => strStarts f "ppt/media/") :=
        List.mem_filter.mpr ⟨zfile_mem_zkeys _ _ _ hpart, hqm⟩
      have hcq : used.contains q = true := by
        cases hcc : used.contains q
        · exact absurd ⟨hkey, hcc⟩ hcond
        · rfl
      have hqu : q ∈ used := by simpa using hcq
      obtain ⟨rf, hsl, rroot, hread, rel, hrel, t, hT, hTne, hnorm⟩ :=
        pptxUsedMedia_mem z4 used h5 q hqu
      have hrf4 : zfile z4 rf = some (.xml rroot) := zreadXml_some_inv _ _ _ hread
      have hrfp : "ppt/s".toList <+: rf.toList := by
        have hp1 : ("ppt/slides/_rels/slide".toList).isPrefixOf rf.toList
            = true := by
          unfold isSlideRelsPath at hsl
          simp only [Bool.and_eq_true] at hsl
          exact hsl.1.1
        exact List.IsPrefix.trans (by decide)
          (List.isPrefixOf_iff_prefix.mp hp1)
      have hrf1 : ['p'] <+: rf.toList := List.IsPrefix.trans (by decide) hrfp
      have hrfCT : rf ≠ "[Content_Types].xml" :=
        ne_of_pre_conflict ['p'] ['['] _ _ hrf1 (by decide) (by decide)
          (by decide)
      have hrfMedia : strStarts rf "ppt/media/" = false := by
        cases hcc : strStarts rf "ppt/media/"
        · rfl
        · have hm : "ppt/m".toList <+: rf.toList :=
            List.IsPrefix.trans (by decide) (List.isPrefixOf_iff_prefix.mp hcc)
          have heq : ("ppt/s".toList : List Char) = "ppt/m".toList :=
            List.IsPrefix.eq_of_length
              (List.prefix_of_prefix_length_le hrfp hm (by decide)) (by decide)
          exact absurd heq (by decide)
      have hfin : zfile z' rf = some (.xml rroot) := by
        rw [pptxMediaCt_pres _ _ _ h6 _ hrfCT,
          pptxMediaRemove_pres _ _ _ hrfMedia]
        exact hrf4
      exact ⟨rf, rroot, hsl, (zxml_eq _ _ _).mpr hfin, rel, hrel, t, hT,
        hTne, hnorm⟩

/-- Witness for C3: the PPTX `p:sldIdLst` conjunct applied to `c3zip`,
with every hypothesis discharged by evaluation: the surviving slide's
relationship `rId1` still resolves in the pruned relationship part. -/
theorem C3_witness :
    (Xml.node [("Id", "rId1"), ("Target", "slides/slide1.xml")] [])
      ∈ relsListOf c3rels :=
  C3_rel_integrity.2.2.1 c3zip 1 c3out c3pres
    (.node [] [("Relationships", [.node []
      [("Relationship",
        [.node [("Id", "rId1"), ("Target", "slides/slide1.xml")] [],
         .node [("Id", "rId2"), ("Target", "slides/slide2.xml")] []])]])])
    c3rels (.node [("r:id", "rId1")] [])
    (.node [("Id", "rId1"), ("Target", "slides/slide1.xml")] [])
    rfl rfl rfl rfl (by decide) (by decide) rfl

end SpeedyF
